import Mathlib

/-!
Verification development for the embed-packing algorithm of the EiMM-Hostbot
repository (src/cogs/interview.py): the functions `add_question` and
`Interview._generate_embeds`, together with the helper methods
`Question.question_words` / `Question.answer_words` and
`InterviewEmbed.blank`.

Texts are modelled as `List Char` (Python `str`), integers as `Int`
(Python `int`).  Each definition is a direct translation of the
corresponding Python code; comments cite the source lines.
-/

namespace Hostbot

set_option maxRecDepth 8000

/-- Python strings are modelled as lists of characters. -/
abbrev Str := List Char

/-- Python `s.split(sep)` for a single-character separator: always returns a
non-empty list, e.g. `''.split(' ') == ['']` and `'a '.split(' ') == ['a', '']`. -/
def splitOnChar (sep : Char) : Str → List Str
  | [] => [[]]
  | c :: cs =>
    match splitOnChar sep cs with
    | [] => [[c]]
    | p :: ps => if c = sep then [] :: p :: ps else (c :: p) :: ps

/-- Python `s.replace('[', '\\[').replace(']', '\\]')` (interview.py lines 164,
172, 233): prefix every square bracket with a backslash. -/
def escape : Str → Str
  | [] => []
  | c :: cs =>
    if c = '[' ∨ c = ']' then '\\' :: c :: escape cs else c :: escape cs

/-- Python `word.replace("\n", "\n> ")` (interview.py line 268): requote
newlines inside a question word. -/
def expandNL : Str → Str
  | [] => []
  | c :: cs => (if c = '\n' then ['\n', '>', ' '] else [c]) ++ expandNL cs

/-- Whitespace characters stripped by Python `str.strip()` (ASCII range). -/
def isSpace (c : Char) : Bool :=
  c = ' ' ∨ c = '\t' ∨ c = '\n' ∨ c = '\r' ∨ c = '\x0b' ∨ c = '\x0c'

/-- Python `line.strip()` (interview.py line 234). -/
def pyStrip (l : Str) : Str :=
  ((l.dropWhile isSpace).reverse.dropWhile isSpace).reverse

/-- Python `sep.join(parts)`. -/
def joinSep (sep : Str) : List Str → Str
  | [] => []
  | [p] => p
  | p :: p' :: ps => p ++ sep ++ joinSep sep (p' :: ps)

/-- A discord member/user as the packer sees it: `Member.__eq__` compares ids;
`str(member)` is its display name; `member.avatar_url` a URL string. -/
structure Asker where
  id : Nat
  name : Str
  avatarUrl : Str
deriving DecidableEq, Repr

/-- One question/answer record (class `Question`, interview.py lines 85-100).
Only the attributes read by the packer are modelled: `asker`, `question`,
`question_num`, `answer`, and `message.jump_url` (the message is only ever
used through its `jump_url`).  `interviewee` and `timestamp` are not read by
`add_question`/`_generate_embeds`. -/
structure Question where
  asker : Asker
  question : Str
  question_num : Nat
  answer : Str
  jumpUrl : Str
deriving DecidableEq, Repr

/-- An embed field (`em.add_field(name=..., value=..., inline=False)`). -/
structure Field where
  name : Str
  value : Str
deriving DecidableEq, Repr

/-- An `InterviewEmbed` as the packer uses it: authored for one asker
(`em.set_author(name=f'Asked by {asker}')`), with the `em.length` attribute
set once in `InterviewEmbed.blank` (line 197) and never updated, and an
ordered field list. -/
structure Embed where
  asker : Asker
  emLength : Nat
  fields : List Field
deriving DecidableEq, Repr

/-- The `em.length` value set by `InterviewEmbed.blank` (interview.py line
197): `len(f"**{interviewee}**'s interview" + ' ' + f'Asked by {asker}') +
len(asker.avatar_url) + 100`. -/
def headerLen (interviewee : Str) (a : Asker) : Nat :=
  ("**".toList ++ interviewee ++ "**".toList ++ ('\'' :: "s interview".toList)
    ++ [' '] ++ "Asked by ".toList ++ a.name).length + a.avatarUrl.length + 100

/-- `InterviewEmbed.blank(interviewee, asker, ...)` (interview.py lines
178-198), keeping the data the packer later reads. -/
def blankEmbed (interviewee : Str) (a : Asker) : Embed :=
  { asker := a, emLength := headerLen interviewee a, fields := [] }

/-- `question_lines` (interview.py lines 233-234): the escaped question text
split on newlines, each line stripped. -/
def questionLines (q : Question) : List Str :=
  (splitOnChar '\n' (escape q.question)).map pyStrip

/-- The quantity tested at interview.py line 239:
`sum([len(line) for line in question_lines]) + len(question_lines) * 3 +
len(question.answer)`. -/
def singleFitLHS (q : Question) : Nat :=
  ((questionLines q).map List.length).sum + (questionLines q).length * 3
    + q.answer.length

/-- The single-block fit test (interview.py line 239): the record fits the
single-field path iff this is `≤ 900`. -/
def singleFit (q : Question) : Bool :=
  singleFitLHS q ≤ 900

/-- `f'Question #{question.question_num}'` (interview.py lines 241, 247). -/
def singleName (q : Question) : Str :=
  "Question #".toList ++ Nat.toDigits 10 q.question_num

/-- `formatted_question_text` (interview.py line 240):
`f'[> {"> ".join(question_lines)}]({question.message.jump_url})'`. -/
def singleFormatted (q : Question) : Str :=
  "[> ".toList ++ joinSep "> ".toList (questionLines q)
    ++ "](".toList ++ q.jumpUrl ++ [')']

/-- The single-field value `f'{formatted_question_text}\n{question.answer}'`
(interview.py lines 241, 248); note the answer is appended unescaped here. -/
def singleValue (q : Question) : Str :=
  singleFormatted q ++ '\n' :: q.answer

/-- `text_length` of the single-field path (interview.py line 241). -/
def textLen (q : Question) : Nat :=
  (singleName q).length + (singleValue q).length

/-- The question-chunking loop of the split path (interview.py lines
261-271).  The accumulator `chunk` starts at `'[> '`; when it exceeds 900
characters the link markup `']({jump_url})'` is appended and a new chunk is
started; each word has newlines requoted and a trailing space added. -/
def qChunksLoop (url : Str) : List Str → Str → List Str
  | [], chunk => [chunk ++ "](".toList ++ url ++ [')']]
  | w :: ws, chunk =>
    if 900 < chunk.length then
      (chunk ++ "](".toList ++ url ++ [')'])
        :: qChunksLoop url ws ("[> ".toList ++ expandNL w ++ [' '])
    else
      qChunksLoop url ws (chunk ++ expandNL w ++ [' '])

/-- The words fed to the question-chunking loop: `question_words()`
(interview.py lines 160-166) escapes brackets and splits on spaces. -/
def wordsQ (q : Question) : List Str :=
  splitOnChar ' ' (escape q.question)

/-- All question chunks of the split path (interview.py lines 261-271). -/
def qChunks (q : Question) : List Str :=
  qChunksLoop q.jumpUrl (wordsQ q) "[> ".toList

/-- The answer-chunking loop (interview.py lines 281-288): soft ceiling 950,
no link markup, no newline requoting. -/
def aChunksLoop : List Str → Str → List Str
  | [], chunk => [chunk]
  | w :: ws, chunk =>
    if 950 < chunk.length then
      chunk :: aChunksLoop ws (w ++ [' '])
    else
      aChunksLoop ws (chunk ++ w ++ [' '])

/-- The words fed to the answer-chunking loop: `answer_words()`
(interview.py lines 168-174). -/
def wordsA (q : Question) : List Str :=
  splitOnChar ' ' (escape q.answer)

/-- All answer chunks of the split path; the accumulator starts empty
(interview.py line 281). -/
def aChunks (q : Question) : List Str :=
  aChunksLoop (wordsA q) []

/-- Field name for chunk `i` (0-based) of `total` chunks (interview.py lines
273-277 and 290-294): `f'{label}{num} [{i + 1}/{total}]'` when more than one
chunk resulted, else `f'{label}{num}'`. -/
def chunkName (label : Str) (num : Nat) (total : Nat) (i : Nat) : Str :=
  if 1 < total then
    label ++ Nat.toDigits 10 num ++ " [".toList ++ Nat.toDigits 10 (i + 1)
      ++ ['/'] ++ Nat.toDigits 10 total ++ [']']
  else
    label ++ Nat.toDigits 10 num

/-- The fields produced from a chunk list (the two `for i, chunk in
enumerate(...)` loops, interview.py lines 273-278 and 290-295). -/
def chunkFields (label : Str) (num : Nat) (chunks : List Str) : List Field :=
  chunks.enum.map (fun ic => { name := chunkName label num chunks.length ic.1, value := ic.2 })

/-- The question fields of the split path. -/
def qFields (q : Question) : List Field :=
  chunkFields "Question #".toList q.question_num (qChunks q)

/-- The answer fields of the split path. -/
def aFields (q : Question) : List Field :=
  chunkFields "Answer #".toList q.question_num (aChunks q)

/-- Total `len(name) + len(chunk)` over a field list (the `text_length`
accumulation at interview.py lines 279 and 296). -/
def fieldsLen (fs : List Field) : Nat :=
  (fs.map (fun f => f.name.length + f.value.length)).sum

/-- `text_length` returned by the split path. -/
def splitTextLen (q : Question) : Nat :=
  fieldsLen (qFields q ++ aFields q)

/-- `add_question(em, question, current_length)` (interview.py lines
221-298), as a pure function: returns the Python return value (`Int`: the
added text length, or the error codes `-1` / `-2`) together with the embed
after the call (fields are appended only on the success paths; every error
`return` occurs before any `em.add_field` call). -/
def addQuestion (em : Embed) (q : Question) (current : Int) : Int × Embed :=
  if singleFit q then
    -- lines 239-251: single-field path
    if 4800 < ((textLen q : Nat) : Int) then (-2, em)
    else if 4800 < current + ((textLen q : Nat) : Int) then (-1, em)
    else (((textLen q : Nat) : Int),
      { em with fields := em.fields ++ [{ name := singleName q, value := singleValue q }] })
  else
    -- lines 253-298: split path
    if 4700 < ((q.question.length + q.answer.length : Nat) : Int) then (-2, em)
    else if 4700 < current + ((q.question.length + q.answer.length : Nat) : Int) then (-1, em)
    else ((splitTextLen q : Int), { em with fields := em.fields ++ qFields q ++ aFields q })

/-- One element of the `_generate_embeds` output stream: either a finished
embed or a question passed through because it can never fit (the
`yield question` at interview.py line 400). -/
inductive Output where
  | doc (e : Embed)
  | rejected (q : Question)
deriving DecidableEq, Repr

/-- `if em is not None and len(em.fields) > 0: yield finalize(em)`
(interview.py lines 384-385 and 404-406; `finalize` is the identity). -/
def emitList (em : Option Embed) : List Output :=
  match em with
  | some e => if 0 < e.fields.length then [Output.doc e] else []
  | none => []

/-- `last_asker != question.asker` (interview.py line 383): discord member
equality compares ids, and `None` differs from every member. -/
def askerChangedB (lastAsker : Option Asker) (a : Asker) : Bool :=
  match lastAsker with
  | none => true
  | some b => b.id != a.id

/-- The loop of `Interview._generate_embeds` (interview.py lines 379-406),
with state `last_asker`, `length`, `em` passed explicitly.  On an asker
change the current embed is emitted (if it has fields) and a blank embed for
the new asker is started with `length = 0`.  Then `add_question` runs; on
`-1` the embed is emitted (if nonempty) and replaced by a blank one (the
`length` accumulator is NOT reset), on `-2` the question itself is yielded;
in every case `length += added_length` and `last_asker = question.asker`.
The `none` arm of the inner match is unreachable from the initial state
(in Python it would be an `AttributeError` aborting the generator). -/
def genAux (iv : Str) : Option Asker → Int → Option Embed → List Question → List Output
  | _, _, em, [] => emitList em
  | lastAsker, length, em, q :: qs =>
    let changed := askerChangedB lastAsker q.asker
    let pre : List Output := if changed then emitList em else []
    let em1 : Option Embed := if changed then some (blankEmbed iv q.asker) else em
    let len1 : Int := if changed then 0 else length
    match em1 with
    | none => []
    | some e =>
      let r := addQuestion e q len1
      if r.1 = -1 then
        pre ++ emitList (some r.2)
          ++ genAux iv (some q.asker) (len1 + r.1) (some (blankEmbed iv q.asker)) qs
      else if r.1 = -2 then
        pre ++ Output.rejected q :: genAux iv (some q.asker) (len1 + r.1) (some r.2) qs
      else
        pre ++ genAux iv (some q.asker) (len1 + r.1) (some r.2) qs

/-- `Interview._generate_embeds(interviewee, questions, avatar_url)`
(interview.py lines 368-406).  The `avatar_url` argument only selects the
thumbnail picture and is dropped from the model. -/
def genEmbeds (iv : Str) (qs : List Question) : List Output :=
  genAux iv none 0 none qs

/-- The embeds among the outputs, in order. -/
def docsOf (outs : List Output) : List Embed :=
  outs.filterMap (fun o => match o with | Output.doc e => some e | Output.rejected _ => none)

/-- Field names of each emitted embed (`[]` for a rejected question). -/
def namesOf (outs : List Output) : List (List Str) :=
  outs.map (fun o => match o with
    | Output.doc e => e.fields.map Field.name
    | Output.rejected _ => [])

/-- Value lengths of each emitted embed's fields (`[]` for a rejected
question). -/
def valueLensOf (outs : List Output) : List (List Nat) :=
  outs.map (fun o => match o with
    | Output.doc e => e.fields.map (fun f => f.value.length)
    | Output.rejected _ => [])

/-- The text of a question chunk with the surrounding markup removed: drop
the leading `'[> '` and the trailing `']({url})'`. -/
def chunkPayload (url : Str) (c : Str) : Str :=
  (c.drop 3).take ((c.drop 3).length - (url.length + 3))

/-- Concatenation of the payloads of a question-chunk list. -/
def payloadConcat (url : Str) (cs : List Str) : Str :=
  (cs.map (chunkPayload url)).flatten

/-- Scanner for `bracketsEscaped`: `prevBS` records whether the previous
character was a backslash. -/
def beAux : Bool → List Char → Bool
  | _, [] => true
  | prevBS, c :: rest =>
    if (c = '[' ∨ c = ']') ∧ ¬prevBS then false else beAux (c = '\\') rest

/-- Every square bracket in the text is immediately preceded by a
backslash. -/
def bracketsEscaped (l : Str) : Bool :=
  beAux false l

/-- The return value of `add_question` (interview.py lines 239-259), which
depends only on the question and `current_length`, never on the embed. -/
def addCode (q : Question) (current : Int) : Int :=
  if singleFit q then
    if 4800 < ((textLen q : Nat) : Int) then -2
    else if 4800 < current + ((textLen q : Nat) : Int) then -1
    else ((textLen q : Nat) : Int)
  else
    if 4700 < ((q.question.length + q.answer.length : Nat) : Int) then -2
    else if 4700 < current + ((q.question.length + q.answer.length : Nat) : Int) then -1
    else ((splitTextLen q : Nat) : Int)

/-- What happened to one input record during a `_generate_embeds` run:
its blocks were placed into the embed that is (or will be) emitted as the
`docIdx`-th document of the output stream, or it was yielded as rejected
(`add_question == -2`), or it was silently dropped (`add_question == -1`:
the loop at interview.py lines 392-397 never re-adds the question). -/
inductive Outcome where
  | placed (docIdx : Nat)
  | rejected
  | dropped
deriving DecidableEq, Repr

/-- The asker-change test on bare asker ids (mirrors `askerChangedB`). -/
def idChangedB (lastAsker : Option Nat) (i : Nat) : Bool :=
  match lastAsker with
  | none => true
  | some j => j != i

/-- How many documents `emitList` would yield for an embed abstracted to
`some hasFields` / `none`. -/
def emitCount (em : Option Bool) : Nat :=
  match em with
  | some true => 1
  | _ => 0

/-- Per-record outcome bookkeeping for the `_generate_embeds` loop.  The
state mirrors `genAux`: the last asker id, the `length` accumulator, the
current embed abstracted to `some hasFields` (or `none`), and the number of
documents emitted so far. -/
def outcomesAux : Option Nat → Int → Option Bool → Nat → List Question → List Outcome
  | _, _, _, _, [] => []
  | lastAsker, length, em, dc, q :: qs =>
    let changed : Bool := idChangedB lastAsker q.asker.id
    let dc1 : Nat := if changed then dc + emitCount em else dc
    let em1 : Option Bool := if changed then some false else em
    let len1 : Int := if changed then 0 else length
    match em1 with
    | none => []
    | some hasF =>
      let c := addCode q len1
      if c = -1 then
        Outcome.dropped
          :: outcomesAux (some q.asker.id) (len1 + c) (some false) (dc1 + (if hasF then 1 else 0)) qs
      else if c = -2 then
        Outcome.rejected :: outcomesAux (some q.asker.id) (len1 + c) (some hasF) dc1 qs
      else
        Outcome.placed dc1 :: outcomesAux (some q.asker.id) (len1 + c) (some true) dc1 qs

/-- Outcome of each record of a full `_generate_embeds` run (the outcome
stream does not depend on the interviewee). -/
def outcomes (qs : List Question) : List Outcome :=
  outcomesAux none 0 none 0 qs

/-! ### Concrete inputs used by counterexamples, failing-input evaluations
and witnesses. -/

/-- A sample asker. -/
def askA : Asker := { id := 1, name := "Alice".toList, avatarUrl := "http://a".toList }

/-- A second asker, different id. -/
def askB : Asker := { id := 2, name := "Beth".toList, avatarUrl := "http://b".toList }

/-- Sample interviewee display name. -/
def ivTest : Str := "Bob".toList

/-- C1 failing input, first record: a tiny question whose message link is
4400 characters, so its single block occupies 4419 characters. -/
def c1r1 : Question :=
  { asker := askA, question := ['q'], question_num := 1, answer := [],
    jumpUrl := List.replicate 4400 'u' }

/-- C1 failing input, second record (same asker): its single block needs 419
characters, so `current_length + text_length = 4838 > 4800` and
`add_question` returns `-1`. -/
def c1r2 : Question :=
  { asker := askA, question := ['q'], question_num := 2, answer := [],
    jumpUrl := List.replicate 400 'u' }

/-- C2 failing input, first record (single block of 4519 characters). -/
def c2s1 : Question :=
  { asker := askA, question := ['q'], question_num := 1, answer := [],
    jumpUrl := List.replicate 4500 'u' }

/-- C2 failing input, second record (single block of 319 characters; alone
it fits any fresh document, but `4519 + 319 > 4800`). -/
def c2s2 : Question :=
  { asker := askA, question := ['q'], question_num := 2, answer := [],
    jumpUrl := List.replicate 300 'u' }

/-- C3 counterexample record: a 901-character question word and a
901-character answer (split path, `q+a = 1802 ≤ 4700`) with a 4000-character
message link, whose two formatted blocks total 5830 characters. -/
def c3q : Question :=
  { asker := askA, question := List.replicate 901 'a',
    question_num := 1, answer := List.replicate 901 'b',
    jumpUrl := List.replicate 4000 'u' }

/-- C4 counterexample record: 4701 spaces as question text; its
question+answer length exceeds 4700 but after per-line stripping it passes
the single-block test and is added to a document instead of rejected. -/
def c4q : Question :=
  { asker := askA, question := List.replicate 4701 ' ', question_num := 3,
    answer := [], jumpUrl := ['u'] }

/-- C6 counterexample record: 897 letters on one line, fitting the
single-block test exactly, whose field body is 989 characters long. -/
def c6q : Question :=
  { asker := askA, question := List.replicate 897 'a', question_num := 1,
    answer := [], jumpUrl := List.replicate 85 'u' }

/-- C7 counterexample record: 301 newlines (the per-line overhead of the
single-block test forces the split path while the raw length stays 301). -/
def c7q : Question :=
  { asker := askA, question := List.replicate 301 '\n', question_num := 1,
    answer := [], jumpUrl := ['u'] }

/-- C8 counterexample record: the answer text contains brackets. -/
def c8q : Question :=
  { asker := askA, question := "hi".toList, question_num := 7,
    answer := "[x]".toList, jumpUrl := ['u'] }

/-- C9 counterexample record: a single 950-character word, above the
per-block ceiling yet chunked into exactly one (unnumbered) question
block. -/
def c9q : Question :=
  { asker := askA, question := List.replicate 950 'a', question_num := 1,
    answer := [], jumpUrl := ['u'] }

/-- A small well-behaved record by asker A (used by witnesses). -/
def wqA1 : Question :=
  { asker := askA, question := "Why?".toList, question_num := 1,
    answer := "Because.".toList, jumpUrl := "http://j/1".toList }

/-- A second small record by asker A. -/
def wqA2 : Question :=
  { asker := askA, question := "How?".toList, question_num := 2,
    answer := "Slowly.".toList, jumpUrl := "http://j/2".toList }

/-- A small record by asker B. -/
def wqB1 : Question :=
  { asker := askB, question := "When?".toList, question_num := 3,
    answer := "Soon.".toList, jumpUrl := "http://j/3".toList }

/-- A split-path record for witnesses: one 901-character question word (no
single-block fit) and a short answer, well under the 4700 ceiling. -/
def wqSplit : Question :=
  { asker := askA, question := List.replicate 901 'a',
    question_num := 4, answer := "ok no".toList, jumpUrl := List.replicate 85 'u' }

/-- A record whose question is 4701 characters of plain text: it fails the
single-block test and exceeds the 4700 rejection ceiling (used as the C4
witness input). -/
def wqHuge : Question :=
  { asker := askA, question := List.replicate 4701 'a', question_num := 5,
    answer := [], jumpUrl := ['u'] }

/-- The single document produced by the C1 failing input. -/
def c1emb : Embed :=
  { asker := askA, emLength := headerLen ivTest askA,
    fields := [{ name := singleName c1r1, value := singleValue c1r1 }] }

/-- The single document produced by the C2 failing input. -/
def c2emb : Embed :=
  { asker := askA, emLength := headerLen ivTest askA,
    fields := [{ name := singleName c2s1, value := singleValue c2s1 }] }

/-- The single (overfull) document produced by the C3 counterexample. -/
def c3emb : Embed :=
  { asker := askA, emLength := headerLen ivTest askA,
    fields := qFields c3q ++ aFields c3q }

/-- The document into which the C4 counterexample record is packed instead
of being rejected. -/
def c4emb : Embed :=
  { asker := askA, emLength := headerLen ivTest askA,
    fields := [{ name := singleName c4q, value := singleValue c4q }] }

/-- The document produced by the C6 counterexample. -/
def c6emb : Embed :=
  { asker := askA, emLength := headerLen ivTest askA,
    fields := [{ name := singleName c6q, value := singleValue c6q }] }

/-- The document produced by the C8 counterexample. -/
def c8emb : Embed :=
  { asker := askA, emLength := headerLen ivTest askA,
    fields := [{ name := singleName c8q, value := singleValue c8q }] }

/-- The single question chunk of the C3 counterexample record. -/
def c3chunk : Str :=
  "[> ".toList ++ List.replicate 901 'a' ++ [' '] ++ "](".toList ++ c3q.jumpUrl ++ [')']

/-- The single question chunk of the C9 counterexample record. -/
def c9chunk : Str :=
  "[> ".toList ++ List.replicate 950 'a' ++ [' '] ++ "](".toList ++ c9q.jumpUrl ++ [')']

/-- The single (unnumbered-blocks) document produced by the C9
counterexample. -/
def c9emb : Embed :=
  { asker := askA, emLength := headerLen ivTest askA,
    fields := qFields c9q ++ aFields c9q }

/-! ## Elementary lemmas about the string helpers -/

theorem escape_eq_self {l : Str} (h : ∀ c ∈ l, c ≠ '[' ∧ c ≠ ']') :
    escape l = l := by
  induction l with
  | nil => rfl
  | cons c cs ih =>
    have hc := h c (List.mem_cons_self c cs)
    simp only [escape, hc.1, hc.2, or_self, if_false]
    rw [ih (fun x hx => h x (List.mem_cons_of_mem c hx))]

theorem expandNL_eq_self {l : Str} (h : ∀ c ∈ l, c ≠ '\n') :
    expandNL l = l := by
  induction l with
  | nil => rfl
  | cons c cs ih =>
    have hc := h c (List.mem_cons_self c cs)
    simp only [expandNL, hc, if_false]
    rw [ih (fun x hx => h x (List.mem_cons_of_mem c hx))]
    rfl

theorem expandNL_append (a b : Str) :
    expandNL (a ++ b) = expandNL a ++ expandNL b := by
  induction a with
  | nil => rfl
  | cons c cs ih => simp [expandNL, ih]

theorem splitOnChar_ne_nil (sep : Char) (l : Str) : splitOnChar sep l ≠ [] := by
  cases l with
  | nil => simp [splitOnChar]
  | cons c cs =>
    simp only [splitOnChar]
    rcases hsp : splitOnChar sep cs with _ | ⟨p, ps⟩
    · simp
    · by_cases hc : c = sep <;> simp [hc]

theorem splitOnChar_cons_eq (sep c : Char) (cs : Str) (p0 : Str) (ps0 : List Str)
    (h : splitOnChar sep cs = p0 :: ps0) :
    splitOnChar sep (c :: cs)
      = if c = sep then [] :: p0 :: ps0 else (c :: p0) :: ps0 := by
  simp only [splitOnChar, h]

theorem splitOnChar_no_sep {sep : Char} {l : Str} (h : ∀ c ∈ l, c ≠ sep) :
    splitOnChar sep l = [l] := by
  induction l with
  | nil => rfl
  | cons c cs ih =>
    have hc := h c (List.mem_cons_self c cs)
    simp only [splitOnChar, ih (fun x hx => h x (List.mem_cons_of_mem c hx)), hc, if_false]

theorem splitOnChar_all_sep (sep : Char) (n : Nat) :
    splitOnChar sep (List.replicate n sep) = List.replicate (n + 1) [] := by
  induction n with
  | zero => rfl
  | succ m ih =>
    rw [List.replicate_succ]
    simp only [splitOnChar, ih]
    rw [List.replicate_succ]
    rcases m with _ | m' <;> simp [List.replicate_succ]

theorem joinSep_splitOnChar (sep : Char) (l : Str) :
    joinSep [sep] (splitOnChar sep l) = l := by
  induction l with
  | nil => rfl
  | cons c cs ih =>
    simp only [splitOnChar]
    rcases hsp : splitOnChar sep cs with _ | ⟨p, ps⟩
    · exact absurd hsp (splitOnChar_ne_nil sep cs)
    · rw [hsp] at ih
      by_cases hc : c = sep
      · subst hc
        simp only [if_true, eq_self_iff_true]
        rcases ps with _ | ⟨p', ps'⟩ <;> simpa [joinSep] using ih
      · simp only [hc, if_false]
        rcases ps with _ | ⟨p', ps'⟩ <;> simpa [joinSep] using ih

theorem dropWhile_eq_self_of_none {p : Char → Bool} {l : Str}
    (h : ∀ c ∈ l, ¬ p c) : l.dropWhile p = l := by
  cases l with
  | nil => rfl
  | cons c cs => simp [List.dropWhile, h c (List.mem_cons_self c cs)]

theorem pyStrip_eq_self {l : Str} (h : ∀ c ∈ l, ¬ isSpace c) : pyStrip l = l := by
  unfold pyStrip
  rw [dropWhile_eq_self_of_none h,
    dropWhile_eq_self_of_none (fun c hc => h c (List.mem_reverse.mp hc)),
    List.reverse_reverse]

theorem dropWhile_replicate_space (n : Nat) :
    (List.replicate n ' ').dropWhile isSpace = [] := by
  induction n with
  | zero => rfl
  | succ m ih => rw [List.replicate_succ]; simp [List.dropWhile, isSpace, ih]

theorem pyStrip_replicate_space (n : Nat) : pyStrip (List.replicate n ' ') = [] := by
  unfold pyStrip
  rw [dropWhile_replicate_space]
  rfl

theorem escape_replicate_of (c : Char) (n : Nat) (h1 : c ≠ '[') (h2 : c ≠ ']') :
    escape (List.replicate n c) = List.replicate n c :=
  escape_eq_self (fun x hx => by rw [List.eq_of_mem_replicate hx]; exact ⟨h1, h2⟩)

theorem splitOnChar_replicate_of (sep c : Char) (n : Nat) (h : c ≠ sep) :
    splitOnChar sep (List.replicate n c) = [List.replicate n c] :=
  splitOnChar_no_sep (fun x hx => by rw [List.eq_of_mem_replicate hx]; exact h)

theorem pyStrip_replicate_of (c : Char) (n : Nat) (h : ¬ isSpace c) :
    pyStrip (List.replicate n c) = List.replicate n c :=
  pyStrip_eq_self (fun x hx => by rw [List.eq_of_mem_replicate hx]; exact h)

theorem expandNL_replicate_of (c : Char) (n : Nat) (h : c ≠ '\n') :
    expandNL (List.replicate n c) = List.replicate n c :=
  expandNL_eq_self (fun x hx => by rw [List.eq_of_mem_replicate hx]; exact h)

theorem questionLines_replicate (q : Question) (c : Char) (n : Nat)
    (hq : q.question = List.replicate n c) (h1 : c ≠ '[') (h2 : c ≠ ']')
    (h3 : c ≠ '\n') (h4 : ¬ isSpace c) :
    questionLines q = [List.replicate n c] := by
  rw [questionLines, hq, escape_replicate_of c n h1 h2,
    splitOnChar_replicate_of '\n' c n h3, List.map_singleton, pyStrip_replicate_of c n h4]

theorem wordsQ_replicate (q : Question) (c : Char) (n : Nat)
    (hq : q.question = List.replicate n c) (h1 : c ≠ '[') (h2 : c ≠ ']')
    (h5 : c ≠ ' ') :
    wordsQ q = [List.replicate n c] := by
  rw [wordsQ, hq, escape_replicate_of c n h1 h2, splitOnChar_replicate_of ' ' c n h5]

theorem wordsA_replicate (q : Question) (c : Char) (n : Nat)
    (hq : q.answer = List.replicate n c) (h1 : c ≠ '[') (h2 : c ≠ ']')
    (h5 : c ≠ ' ') :
    wordsA q = [List.replicate n c] := by
  rw [wordsA, hq, escape_replicate_of c n h1 h2, splitOnChar_replicate_of ' ' c n h5]

theorem fieldsLen_append (a b : List Field) :
    fieldsLen (a ++ b) = fieldsLen a + fieldsLen b := by
  simp [fieldsLen]

theorem joinSep_length (sep : Str) (p : Str) (ps : List Str) :
    (joinSep sep (p :: ps)).length
      = ((p :: ps).map List.length).sum + sep.length * ps.length := by
  induction ps generalizing p with
  | nil => simp [joinSep]
  | cons p' ps' ih =>
    simp only [joinSep, List.length_append, ih p', List.map_cons, List.sum_cons,
      List.length_cons]
    ring

theorem singleValue_length_eq (q : Question) (p : Str) (ps : List Str)
    (h : questionLines q = p :: ps) :
    (singleValue q).length
      = ((p :: ps).map List.length).sum + 2 * ps.length + q.jumpUrl.length + 7
        + q.answer.length := by
  rw [singleValue, singleFormatted, h]
  simp only [List.length_append, List.length_cons, List.length_nil]
  rw [joinSep_length]
  rw [show ("[> ".toList).length = 3 from rfl, show ("](".toList).length = 2 from rfl,
    show ("> ".toList).length = 2 from rfl]
  omega

theorem textLen_eq (q : Question) (p : Str) (ps : List Str)
    (h : questionLines q = p :: ps) :
    textLen q
      = (singleName q).length + (((p :: ps).map List.length).sum + 2 * ps.length
          + q.jumpUrl.length + 7 + q.answer.length) := by
  rw [textLen, singleValue_length_eq q p ps h]

/-! ## Reconstruction of the split-path chunks

The concatenated payloads of the question chunks (bodies with the leading
`'[> '` and the trailing `']({url})'` markup removed) rebuild the escaped
question text, newline-requoted, plus one trailing space; the concatenated
answer chunks rebuild the escaped answer plus one trailing space. -/

theorem payloadConcat_cons (url c : Str) (cs : List Str) :
    payloadConcat url (c :: cs) = chunkPayload url c ++ payloadConcat url cs := by
  simp [payloadConcat]

theorem chunkPayload_eq (url b : Str) :
    chunkPayload url ("[> ".toList ++ b ++ "](".toList ++ url ++ [')']) = b := by
  have h1 : "[> ".toList ++ b ++ "](".toList ++ url ++ [')']
      = '[' :: '>' :: ' ' :: (b ++ ("](".toList ++ url ++ [')'])) := by
    simp
  rw [chunkPayload, h1]
  have h2 : (('[' :: '>' :: ' ' :: (b ++ ("](".toList ++ url ++ [')']))).drop 3)
      = b ++ ("](".toList ++ url ++ [')']) := rfl
  rw [h2]
  have h3 : (b ++ ("](".toList ++ url ++ [')'])).length = b.length + (url.length + 3) := by
    simp
  rw [h3, Nat.add_sub_cancel]
  exact List.take_left b ("](".toList ++ url ++ [')'])

theorem qChunksLoop_payload (url : Str) (ws : List Str) (acc : Str) :
    payloadConcat url (qChunksLoop url ws ("[> ".toList ++ acc))
      = acc ++ (ws.map (fun w => expandNL w ++ [' '])).flatten := by
  induction ws generalizing acc with
  | nil =>
    show payloadConcat url [("[> ".toList ++ acc) ++ "](".toList ++ url ++ [')']] = _
    rw [payloadConcat_cons]
    have : ("[> ".toList ++ acc) ++ "](".toList ++ url ++ [')']
        = "[> ".toList ++ acc ++ "](".toList ++ url ++ [')'] := by simp
    rw [this, chunkPayload_eq url acc]
    simp [payloadConcat]
  | cons w ws ih =>
    show payloadConcat url
        (if 900 < ("[> ".toList ++ acc).length then
          (("[> ".toList ++ acc) ++ "](".toList ++ url ++ [')'])
            :: qChunksLoop url ws ("[> ".toList ++ expandNL w ++ [' '])
         else qChunksLoop url ws (("[> ".toList ++ acc) ++ expandNL w ++ [' '])) = _
    by_cases hlen : 900 < ("[> ".toList ++ acc).length
    · rw [if_pos hlen, payloadConcat_cons]
      have h1 : ("[> ".toList ++ acc) ++ "](".toList ++ url ++ [')']
          = "[> ".toList ++ acc ++ "](".toList ++ url ++ [')'] := by simp
      have h2 : "[> ".toList ++ expandNL w ++ [' ']
          = "[> ".toList ++ (expandNL w ++ [' ']) := by simp
      rw [h1, chunkPayload_eq url acc, h2, ih]
      simp
    · rw [if_neg hlen]
      have h2 : ("[> ".toList ++ acc) ++ expandNL w ++ [' ']
          = "[> ".toList ++ (acc ++ (expandNL w ++ [' '])) := by simp
      rw [h2, ih]
      simp

theorem aChunksLoop_flatten (ws : List Str) (acc : Str) :
    (aChunksLoop ws acc).flatten = acc ++ (ws.map (fun w => w ++ [' '])).flatten := by
  induction ws generalizing acc with
  | nil => simp [aChunksLoop]
  | cons w ws ih =>
    show (if 950 < acc.length then acc :: aChunksLoop ws (w ++ [' '])
          else aChunksLoop ws (acc ++ w ++ [' '])).flatten = _
    by_cases hlen : 950 < acc.length
    · rw [if_pos hlen]
      simp only [List.flatten_cons, ih]
      simp
    · rw [if_neg hlen, ih]
      simp

theorem flatten_words_join (g : Str → Str)
    (hApp : ∀ a b : Str, g (a ++ b) = g a ++ g b) (hSp : g [' '] = [' '])
    (p : Str) (ps : List Str) :
    (((p :: ps).map (fun w => g w ++ [' '])).flatten)
      = g (joinSep [' '] (p :: ps)) ++ [' '] := by
  induction ps generalizing p with
  | nil => simp [joinSep]
  | cons p' ps' ih =>
    simp only [List.map_cons, List.flatten_cons] at ih ⊢
    rw [ih p']
    show (g p ++ [' ']) ++ (g (joinSep [' '] (p' :: ps')) ++ [' ']) = _
    rw [joinSep, hApp, hApp, hSp]
    simp

theorem flatten_splitWords (g : Str → Str)
    (hApp : ∀ a b : Str, g (a ++ b) = g a ++ g b) (hSp : g [' '] = [' '])
    (s : Str) :
    (((splitOnChar ' ' s).map (fun w => g w ++ [' '])).flatten) = g s ++ [' '] := by
  rcases hsp : splitOnChar ' ' s with _ | ⟨p, ps⟩
  · exact absurd hsp (splitOnChar_ne_nil ' ' s)
  · rw [flatten_words_join g hApp hSp p ps, ← hsp, joinSep_splitOnChar ' ' s]

theorem qChunks_payload (q : Question) :
    payloadConcat q.jumpUrl (qChunks q) = expandNL (escape q.question) ++ [' '] := by
  have h0 : "[> ".toList = "[> ".toList ++ ([] : Str) := by simp
  rw [qChunks, wordsQ, h0, qChunksLoop_payload]
  rw [flatten_splitWords expandNL expandNL_append rfl]
  simp

theorem aChunks_flatten (q : Question) :
    (aChunks q).flatten = escape q.answer ++ [' '] := by
  rw [aChunks, wordsA, aChunksLoop_flatten]
  rw [flatten_splitWords (fun w => w) (fun a b => rfl) rfl]
  simp

/-! ## Size bounds on the produced blocks

The source closes a question chunk only after it already exceeds 900
characters, so a closed chunk carries up to one word, one space and the
link markup `']({url})'` beyond the ceiling; an answer chunk carries up to
one word and one space beyond 950.  A single-path body stays within
`900 + 4 + len(url)` because the 900-test is applied before the link markup
is added. -/

theorem qChunksLoop_bound (url : Str) (M : Nat) (ws : List Str) :
    ∀ acc : Str, (∀ w ∈ ws, (expandNL w).length ≤ M) → acc.length ≤ 901 + M →
      ∀ c ∈ qChunksLoop url ws acc, c.length ≤ 904 + M + url.length := by
  induction ws with
  | nil =>
    intro acc _ hacc c hc
    simp only [qChunksLoop, List.mem_singleton] at hc
    subst hc
    simp only [List.length_append, List.length_cons]
    simp [List.length_append]
    omega
  | cons w ws ih =>
    intro acc hws hacc c hc
    have hw : (expandNL w).length ≤ M := hws w (List.mem_cons_self w ws)
    have hws' : ∀ x ∈ ws, (expandNL x).length ≤ M :=
      fun x hx => hws x (List.mem_cons_of_mem w hx)
    simp only [qChunksLoop] at hc
    by_cases hlen : 900 < acc.length
    · rw [if_pos hlen] at hc
      rcases List.mem_cons.mp hc with hc1 | hc2
      · subst hc1
        simp [List.length_append]
        omega
      · refine ih _ hws' ?_ c hc2
        simp [List.length_append]
        omega
    · rw [if_neg hlen] at hc
      refine ih _ hws' ?_ c hc
      simp only [not_lt] at hlen
      simp [List.length_append]
      omega

theorem qChunks_bound (q : Question) (M : Nat)
    (hw : ∀ w ∈ wordsQ q, (expandNL w).length ≤ M) :
    ∀ c ∈ qChunks q, c.length ≤ 904 + M + q.jumpUrl.length := by
  refine qChunksLoop_bound q.jumpUrl M (wordsQ q) "[> ".toList hw ?_
  simp
  omega

theorem aChunksLoop_bound (M : Nat) (ws : List Str) :
    ∀ acc : Str, (∀ w ∈ ws, w.length ≤ M) → acc.length ≤ 951 + M →
      ∀ c ∈ aChunksLoop ws acc, c.length ≤ 951 + M := by
  induction ws with
  | nil =>
    intro acc _ hacc c hc
    simp only [aChunksLoop, List.mem_singleton] at hc
    subst hc
    exact hacc
  | cons w ws ih =>
    intro acc hws hacc c hc
    have hw : w.length ≤ M := hws w (List.mem_cons_self w ws)
    have hws' : ∀ x ∈ ws, x.length ≤ M :=
      fun x hx => hws x (List.mem_cons_of_mem w hx)
    simp only [aChunksLoop] at hc
    by_cases hlen : 950 < acc.length
    · rw [if_pos hlen] at hc
      rcases List.mem_cons.mp hc with hc1 | hc2
      · subst hc1; exact hacc
      · refine ih _ hws' ?_ c hc2
        simp [List.length_append]
        omega
    · rw [if_neg hlen] at hc
      refine ih _ hws' ?_ c hc
      simp only [not_lt] at hlen
      simp [List.length_append]
      omega

theorem aChunks_bound (q : Question) (M : Nat)
    (hw : ∀ w ∈ wordsA q, w.length ≤ M) :
    ∀ c ∈ aChunks q, c.length ≤ 951 + M := by
  refine aChunksLoop_bound M (wordsA q) [] hw ?_
  simp

theorem questionLines_ne_nil (q : Question) : questionLines q ≠ [] := by
  unfold questionLines
  intro h
  exact splitOnChar_ne_nil '\n' (escape q.question) (List.map_eq_nil_iff.mp h)

theorem singleValue_bound (q : Question) (h : singleFit q = true) :
    (singleValue q).length ≤ 904 + q.jumpUrl.length := by
  rcases hql : questionLines q with _ | ⟨p, ps⟩
  · exact absurd hql (questionLines_ne_nil q)
  · have hfit : singleFitLHS q ≤ 900 := by
      simpa [singleFit] using h
    rw [singleFitLHS, hql] at hfit
    simp only [List.map_cons, List.sum_cons, List.length_cons] at hfit
    simp only [singleValue, singleFormatted, hql, List.length_append, List.length_cons]
    rw [joinSep_length]
    simp only [List.map_cons, List.sum_cons]
    simp
    omega

/-! ## Bracket escaping

`beAux`-based facts: `escape` output never contains a bare bracket, and
this is preserved by newline requoting, by splitting on newlines, by
stripping, and by joining with the quote marker. -/

theorem beAux_cons (b : Bool) (c : Char) (r : Str) :
    beAux b (c :: r)
      = if (c = '[' ∨ c = ']') ∧ ¬b then false else beAux (c = '\\') r := rfl

theorem beAux_append {l m : Str} {b : Bool} (h1 : beAux b l = true)
    (h2 : ∀ b' : Bool, beAux b' m = true) : beAux b (l ++ m) = true := by
  induction l generalizing b with
  | nil => exact h2 b
  | cons c cs ih =>
    rw [beAux_cons] at h1
    rw [List.cons_append, beAux_cons]
    by_cases hc : (c = '[' ∨ c = ']') ∧ ¬b
    · rw [if_pos hc] at h1; exact absurd h1 (by simp)
    · rw [if_neg hc] at h1 ⊢
      exact ih h1

theorem beAux_of_append {l m : Str} {b : Bool} (h : beAux b (l ++ m) = true) :
    beAux b l = true := by
  induction l generalizing b with
  | nil => rfl
  | cons c cs ih =>
    rw [List.cons_append, beAux_cons] at h
    rw [beAux_cons]
    by_cases hc : (c = '[' ∨ c = ']') ∧ ¬b
    · rw [if_pos hc] at h; exact absurd h (by simp)
    · rw [if_neg hc] at h ⊢
      exact ih h

theorem beAux_escape (l : Str) (b : Bool) : beAux b (escape l) = true := by
  induction l generalizing b with
  | nil => rfl
  | cons c cs ih =>
    simp only [escape]
    by_cases hc : c = '[' ∨ c = ']'
    · rw [if_pos hc, beAux_cons]
      have h1 : ¬(('\\' = '[' ∨ '\\' = ']') ∧ ¬b) := by simp
      rw [if_neg h1, beAux_cons]
      have h2 : ¬((c = '[' ∨ c = ']') ∧ ¬('\\' = '\\' : Bool)) := by simp
      rw [if_neg h2]
      exact ih _
    · rw [if_neg hc, beAux_cons, if_neg (by simp [hc]), ih]

theorem beAux_expandNL {l : Str} {b : Bool} (h : beAux b l = true) :
    beAux b (expandNL l) = true := by
  induction l generalizing b with
  | nil => rfl
  | cons c cs ih =>
    rw [beAux_cons] at h
    by_cases hc : (c = '[' ∨ c = ']') ∧ ¬b
    · rw [if_pos hc] at h; exact absurd h (by simp)
    · rw [if_neg hc] at h
      by_cases hnl : c = '\n'
      · subst hnl
        show beAux b ('\n' :: '>' :: ' ' :: expandNL cs) = true
        rw [beAux_cons, if_neg (by simp), beAux_cons, if_neg (by simp),
          beAux_cons, if_neg (by simp)]
        have hb : ('\n' = '\\' : Bool) = false := by decide
        rw [hb] at h
        simpa using ih h
      · show beAux b ((if c = '\n' then ['\n', '>', ' '] else [c]) ++ expandNL cs) = true
        rw [if_neg hnl, List.singleton_append, beAux_cons, if_neg hc]
        exact ih h

theorem isSpace_not_bracket {c : Char} (h : isSpace c = true) :
    ¬(c = '[' ∨ c = ']') := by
  have h6 : c = ' ' ∨ c = '\t' ∨ c = '\n' ∨ c = '\r' ∨ c = '\x0b' ∨ c = '\x0c' := by
    simpa [isSpace] using h
  rcases h6 with h' | h' | h' | h' | h' | h' <;> subst h' <;> decide

theorem isSpace_not_backslash {c : Char} (h : isSpace c = true) :
    (c = '\\' : Bool) = false := by
  have h6 : c = ' ' ∨ c = '\t' ∨ c = '\n' ∨ c = '\r' ∨ c = '\x0b' ∨ c = '\x0c' := by
    simpa [isSpace] using h
  rcases h6 with h' | h' | h' | h' | h' | h' <;> subst h' <;> decide

theorem beAux_dropWhile_space {l : Str} :
    beAux false l = true → beAux false (l.dropWhile isSpace) = true := by
  induction l with
  | nil => exact fun h => h
  | cons c cs ih =>
    intro h
    by_cases hsp : isSpace c
    · rw [List.dropWhile_cons_of_pos hsp]
      rw [beAux_cons, if_neg (by simp [isSpace_not_bracket hsp]),
        isSpace_not_backslash hsp] at h
      exact ih h
    · rw [List.dropWhile_cons_of_neg (by simpa using hsp)]
      exact h

theorem pyStrip_decomp (l : Str) :
    l.dropWhile isSpace
      = pyStrip l ++ ((l.dropWhile isSpace).reverse.takeWhile isSpace).reverse := by
  unfold pyStrip
  have h1 := List.takeWhile_append_dropWhile isSpace (l.dropWhile isSpace).reverse
  calc l.dropWhile isSpace
      = ((l.dropWhile isSpace).reverse).reverse := by rw [List.reverse_reverse]
    _ = ((l.dropWhile isSpace).reverse.takeWhile isSpace
          ++ (l.dropWhile isSpace).reverse.dropWhile isSpace).reverse := by rw [h1]
    _ = _ := by rw [List.reverse_append]

theorem beAux_pyStrip {l : Str} (h : beAux false l = true) :
    beAux false (pyStrip l) = true := by
  have h1 := beAux_dropWhile_space h
  rw [pyStrip_decomp l] at h1
  exact beAux_of_append h1

theorem beAux_quoteJoin {j : Str} (h : beAux false j = true) (b : Bool) :
    beAux b ("> ".toList ++ j) = true := by
  show beAux b ('>' :: ' ' :: j) = true
  rw [beAux_cons, if_neg (by simp), beAux_cons, if_neg (by simp)]
  simpa using h

theorem beAux_joinSepQuote (parts : List Str)
    (h : ∀ p ∈ parts, beAux false p = true) :
    beAux false (joinSep "> ".toList parts) = true := by
  induction parts with
  | nil => rfl
  | cons p ps ih =>
    rcases ps with _ | ⟨p', ps'⟩
    · exact h p (List.mem_cons_self p [])
    · show beAux false (p ++ "> ".toList ++ joinSep "> ".toList (p' :: ps')) = true
      have hp : beAux false p = true := h p (List.mem_cons_self p _)
      have hrest : beAux false (joinSep "> ".toList (p' :: ps')) = true :=
        ih (fun x hx => h x (List.mem_cons_of_mem p hx))
      have hassoc : p ++ "> ".toList ++ joinSep "> ".toList (p' :: ps')
          = p ++ ("> ".toList ++ joinSep "> ".toList (p' :: ps')) := by simp
      rw [hassoc]
      exact beAux_append hp (beAux_quoteJoin hrest)

theorem beAux_splitNL {l : Str} {b : Bool} (h : beAux b l = true) :
    ∀ p ps, splitOnChar '\n' l = p :: ps →
      beAux b p = true ∧ ∀ p' ∈ ps, beAux false p' = true := by
  induction l generalizing b with
  | nil =>
    intro p ps hsp
    simp only [splitOnChar] at hsp
    cases hsp
    exact ⟨rfl, by simp⟩
  | cons c cs ih =>
    intro p ps hsp
    rw [beAux_cons] at h
    by_cases hbr : (c = '[' ∨ c = ']') ∧ ¬b
    · rw [if_pos hbr] at h; exact absurd h (by simp)
    rw [if_neg hbr] at h
    rcases hsp0 : splitOnChar '\n' cs with _ | ⟨p0, ps0⟩
    · exact absurd hsp0 (splitOnChar_ne_nil '\n' cs)
    rw [splitOnChar_cons_eq '\n' c cs p0 ps0 hsp0] at hsp
    obtain ⟨hfst, hrest⟩ := ih h p0 ps0 hsp0
    by_cases hnl : c = '\n'
    · rw [if_pos hnl] at hsp
      cases hsp
      refine ⟨rfl, ?_⟩
      intro p' hp'
      rcases List.mem_cons.mp hp' with h' | h'
      · subst h'
        have : ('\n' = '\\' : Bool) = false := by decide
        rw [hnl, this] at hfst
        exact hfst
      · exact hrest p' h'
    · rw [if_neg hnl] at hsp
      cases hsp
      constructor
      · rw [beAux_cons, if_neg hbr]
        exact hfst
      · exact hrest

theorem beAux_questionPortion (q : Question) :
    bracketsEscaped (joinSep "> ".toList (questionLines q)) = true := by
  unfold bracketsEscaped
  refine beAux_joinSepQuote _ ?_
  intro p hp
  unfold questionLines at hp
  obtain ⟨p0, hp0, rfl⟩ := List.mem_map.mp hp
  refine beAux_pyStrip ?_
  rcases hsp : splitOnChar '\n' (escape q.question) with _ | ⟨ph, pt⟩
  · exact absurd hsp (splitOnChar_ne_nil _ _)
  · obtain ⟨hh, ht⟩ := beAux_splitNL (beAux_escape q.question false) ph pt hsp
    rw [hsp] at hp0
    rcases List.mem_cons.mp hp0 with h' | h'
    · subst h'; exact hh
    · exact ht p0 h'

theorem bracketsEscaped_qPayload (q : Question) :
    bracketsEscaped (payloadConcat q.jumpUrl (qChunks q)) = true := by
  rw [qChunks_payload, bracketsEscaped]
  refine beAux_append (beAux_expandNL (beAux_escape q.question false)) ?_
  intro b'
  rw [beAux_cons, if_neg (by simp)]
  rfl

theorem bracketsEscaped_aFlatten (q : Question) :
    bracketsEscaped ((aChunks q).flatten) = true := by
  rw [aChunks_flatten, bracketsEscaped]
  refine beAux_append (beAux_escape q.answer false) ?_
  intro b'
  rw [beAux_cons, if_neg (by simp)]
  rfl

/-! ## Case analysis of `add_question` -/

theorem addQuestion_single_eq (em : Embed) (q : Question) (cur : Int)
    (h : singleFit q = true) :
    addQuestion em q cur =
      if 4800 < ((textLen q : Nat) : Int) then (-2, em)
      else if 4800 < cur + ((textLen q : Nat) : Int) then (-1, em)
      else (((textLen q : Nat) : Int),
        { em with fields := em.fields ++ [{ name := singleName q, value := singleValue q }] }) := by
  simp only [addQuestion, h, if_true]

theorem addQuestion_split_eq (em : Embed) (q : Question) (cur : Int)
    (h : singleFit q = false) :
    addQuestion em q cur =
      if 4700 < ((q.question.length + q.answer.length : Nat) : Int) then (-2, em)
      else if 4700 < cur + ((q.question.length + q.answer.length : Nat) : Int) then (-1, em)
      else (((splitTextLen q : Nat) : Int),
        { em with fields := em.fields ++ qFields q ++ aFields q }) := by
  simp only [addQuestion, h, Bool.false_eq_true, if_false]

theorem addQuestion_fst (em : Embed) (q : Question) (cur : Int) :
    (addQuestion em q cur).1 = addCode q cur := by
  by_cases h : singleFit q
  · rw [addQuestion_single_eq em q cur h]
    simp only [addCode, h, if_true]
    split_ifs <;> rfl
  · rw [addQuestion_split_eq em q cur (by simpa using h)]
    simp only [addCode, h, Bool.false_eq_true, if_false]
    split_ifs <;> rfl

theorem addQuestion_snd_of_neg (em : Embed) (q : Question) (cur : Int)
    (h : (addQuestion em q cur).1 < 0) : (addQuestion em q cur).2 = em := by
  by_cases hs : singleFit q
  · rw [addQuestion_single_eq em q cur hs] at h ⊢
    split_ifs at h ⊢ with h1 h2
    · rfl
    · rfl
    · exfalso
      simp only [] at h
      omega
  · rw [addQuestion_split_eq em q cur (by simpa using hs)] at h ⊢
    split_ifs at h ⊢ with h1 h2
    · rfl
    · rfl
    · exfalso
      simp only [] at h
      omega

theorem aChunksLoop_ne_nil (ws : List Str) (acc : Str) : aChunksLoop ws acc ≠ [] := by
  induction ws generalizing acc with
  | nil => simp [aChunksLoop]
  | cons w ws ih =>
    simp only [aChunksLoop]
    split_ifs
    · simp
    · exact ih _

theorem aFields_ne_nil (q : Question) : aFields q ≠ [] := by
  unfold aFields chunkFields aChunks
  intro h
  rw [List.map_eq_nil_iff, List.enum_eq_nil] at h
  exact aChunksLoop_ne_nil (wordsA q) [] h

theorem addCode_nonneg_cases (q : Question) (cur : Int) :
    addCode q cur = -1 ∨ addCode q cur = -2 ∨ 0 ≤ addCode q cur := by
  unfold addCode
  split_ifs <;> simp

theorem addQuestion_snd_asker (em : Embed) (q : Question) (cur : Int) :
    (addQuestion em q cur).2.asker = em.asker := by
  unfold addQuestion
  split_ifs <;> rfl

theorem addQuestion_snd_emLength (em : Embed) (q : Question) (cur : Int) :
    (addQuestion em q cur).2.emLength = em.emLength := by
  unfold addQuestion
  split_ifs <;> rfl

theorem addQuestion_added_fields (em : Embed) (q : Question) (cur : Int)
    (h : 0 ≤ (addQuestion em q cur).1) :
    ∃ fs, (addQuestion em q cur).2.fields = em.fields ++ fs ∧ fs ≠ [] := by
  by_cases hs : singleFit q
  · rw [addQuestion_single_eq em q cur hs] at h ⊢
    split_ifs at h ⊢ with h1 h2
    · exact absurd h (by simp)
    · exact absurd h (by simp)
    · exact ⟨[{ name := singleName q, value := singleValue q }], rfl, by simp⟩
  · rw [addQuestion_split_eq em q cur (by simpa using hs)] at h ⊢
    split_ifs at h ⊢ with h1 h2
    · exact absurd h (by simp)
    · exact absurd h (by simp)
    · refine ⟨qFields q ++ aFields q, by simp, ?_⟩
      intro hnil
      exact aFields_ne_nil q (List.append_eq_nil.mp hnil).2

/-! ## The `_generate_embeds` loop: unfolding equations and output shape -/

theorem docsOf_nil : docsOf [] = [] := rfl

theorem docsOf_cons_doc (e : Embed) (l : List Output) :
    docsOf (Output.doc e :: l) = e :: docsOf l := rfl

theorem docsOf_cons_rejected (q : Question) (l : List Output) :
    docsOf (Output.rejected q :: l) = docsOf l := rfl

theorem docsOf_append (a b : List Output) :
    docsOf (a ++ b) = docsOf a ++ docsOf b := by
  simp [docsOf]

theorem emitList_none : emitList none = [] := rfl

theorem emitList_some_pos {e : Embed} (h : 0 < e.fields.length) :
    emitList (some e) = [Output.doc e] := by
  simp [emitList, h]

theorem emitList_some_zero {e : Embed} (h : ¬ 0 < e.fields.length) :
    emitList (some e) = [] := by
  simp [emitList, h]

theorem docsOf_emitList_length (em : Option Embed) :
    (docsOf (emitList em)).length
      = emitCount (em.map (fun e => decide (0 < e.fields.length))) := by
  rcases em with _ | e
  · rfl
  · by_cases h : 0 < e.fields.length
    · rw [emitList_some_pos h]
      simp [docsOf, emitCount, h]
    · rw [emitList_some_zero h]
      simp [docsOf, emitCount, h]

theorem askerChangedB_eq_idChangedB (la : Option Asker) (a : Asker) :
    askerChangedB la a = idChangedB (la.map Asker.id) a.id := by
  cases la <;> rfl

theorem genAux_nil (iv : Str) (la : Option Asker) (len : Int) (em : Option Embed) :
    genAux iv la len em [] = emitList em := rfl

theorem genAux_cons_of_changed (iv : Str) (la : Option Asker) (len : Int)
    (em : Option Embed) (q : Question) (qs : List Question)
    (hch : askerChangedB la q.asker = true) :
    genAux iv la len em (q :: qs)
      = emitList em ++
        (if (addQuestion (blankEmbed iv q.asker) q 0).1 = -1 then
          emitList (some (addQuestion (blankEmbed iv q.asker) q 0).2)
            ++ genAux iv (some q.asker) (0 + (addQuestion (blankEmbed iv q.asker) q 0).1)
                (some (blankEmbed iv q.asker)) qs
         else if (addQuestion (blankEmbed iv q.asker) q 0).1 = -2 then
          Output.rejected q
            :: genAux iv (some q.asker) (0 + (addQuestion (blankEmbed iv q.asker) q 0).1)
                (some (addQuestion (blankEmbed iv q.asker) q 0).2) qs
         else
          genAux iv (some q.asker) (0 + (addQuestion (blankEmbed iv q.asker) q 0).1)
            (some (addQuestion (blankEmbed iv q.asker) q 0).2) qs) := by
  simp only [genAux, hch, if_true]
  split_ifs <;> simp [List.append_assoc]

theorem genAux_cons_of_same (iv : Str) (la : Option Asker) (len : Int)
    (e : Embed) (q : Question) (qs : List Question)
    (hch : askerChangedB la q.asker = false) :
    genAux iv la len (some e) (q :: qs)
      = (if (addQuestion e q len).1 = -1 then
          emitList (some (addQuestion e q len).2)
            ++ genAux iv (some q.asker) (len + (addQuestion e q len).1)
                (some (blankEmbed iv q.asker)) qs
         else if (addQuestion e q len).1 = -2 then
          Output.rejected q
            :: genAux iv (some q.asker) (len + (addQuestion e q len).1)
                (some (addQuestion e q len).2) qs
         else
          genAux iv (some q.asker) (len + (addQuestion e q len).1)
            (some (addQuestion e q len).2) qs) := by
  simp only [genAux, hch, Bool.false_eq_true, if_false]
  split_ifs <;> simp

theorem genAux_cons_none_same (iv : Str) (la : Option Asker) (len : Int)
    (q : Question) (qs : List Question)
    (hch : askerChangedB la q.asker = false) :
    genAux iv la len none (q :: qs) = [] := by
  simp only [genAux, hch, Bool.false_eq_true, if_false]

theorem outcomesAux_nil (la : Option Nat) (len : Int) (em : Option Bool) (dc : Nat) :
    outcomesAux la len em dc [] = [] := rfl

theorem outcomesAux_cons_of_changed (la : Option Nat) (len : Int)
    (em : Option Bool) (dc : Nat) (q : Question) (qs : List Question)
    (hch : idChangedB la q.asker.id = true) :
    outcomesAux la len em dc (q :: qs)
      = (if addCode q 0 = -1 then
          Outcome.dropped :: outcomesAux (some q.asker.id) (0 + addCode q 0) (some false)
            (dc + emitCount em) qs
         else if addCode q 0 = -2 then
          Outcome.rejected :: outcomesAux (some q.asker.id) (0 + addCode q 0) (some false)
            (dc + emitCount em) qs
         else
          Outcome.placed (dc + emitCount em)
            :: outcomesAux (some q.asker.id) (0 + addCode q 0) (some true)
                (dc + emitCount em) qs) := by
  simp only [outcomesAux, hch, if_true]
  split_ifs <;> simp_all

theorem outcomesAux_cons_of_same (la : Option Nat) (len : Int)
    (hasF : Bool) (dc : Nat) (q : Question) (qs : List Question)
    (hch : idChangedB la q.asker.id = false) :
    outcomesAux la len (some hasF) dc (q :: qs)
      = (if addCode q len = -1 then
          Outcome.dropped :: outcomesAux (some q.asker.id) (len + addCode q len) (some false)
            (dc + (if hasF then 1 else 0)) qs
         else if addCode q len = -2 then
          Outcome.rejected :: outcomesAux (some q.asker.id) (len + addCode q len) (some hasF) dc qs
         else
          Outcome.placed dc
            :: outcomesAux (some q.asker.id) (len + addCode q len) (some true) dc qs) := by
  simp only [outcomesAux, hch, Bool.false_eq_true, if_false]

theorem outcomesAux_cons_none_same (la : Option Nat) (len : Int) (dc : Nat)
    (q : Question) (qs : List Question)
    (hch : idChangedB la q.asker.id = false) :
    outcomesAux la len none dc (q :: qs) = [] := by
  simp only [outcomesAux, hch, Bool.false_eq_true, if_false]

/-- A nonempty current embed is the next document the generator emits, and
it is emitted with its own author: the first document of the remaining
output stream exists and carries the current embed's asker. -/
theorem genAux_firstDoc (iv : Str) (qs : List Question) :
    ∀ (la : Option Asker) (len : Int) (e : Embed), 0 < e.fields.length →
      ∃ d, (docsOf (genAux iv la len (some e) qs))[0]? = some d ∧ d.asker = e.asker := by
  induction qs with
  | nil =>
    intro la len e he
    rw [genAux_nil, emitList_some_pos he]
    exact ⟨e, rfl, rfl⟩
  | cons q qs ih =>
    intro la len e he
    by_cases hch : askerChangedB la q.asker = true
    · rw [genAux_cons_of_changed iv la len (some e) q qs hch, emitList_some_pos he,
        docsOf_append]
      exact ⟨e, by simp [docsOf_cons_doc], rfl⟩
    · have hch' : askerChangedB la q.asker = false := by
        simpa using hch
      rw [genAux_cons_of_same iv la len e q qs hch']
      by_cases h1 : (addQuestion e q len).1 = -1
      · rw [if_pos h1]
        have hsnd : (addQuestion e q len).2 = e :=
          addQuestion_snd_of_neg e q len (by omega)
        rw [hsnd, emitList_some_pos he, docsOf_append]
        exact ⟨e, by simp [docsOf_cons_doc], rfl⟩
      · by_cases h2 : (addQuestion e q len).1 = -2
        · rw [if_neg h1, if_pos h2]
          have hsnd : (addQuestion e q len).2 = e :=
            addQuestion_snd_of_neg e q len (by omega)
          rw [hsnd, docsOf_cons_rejected]
          exact ih (some q.asker) (len + (addQuestion e q len).1) e he
        · rw [if_neg h1, if_neg h2]
          have h0 : 0 ≤ (addQuestion e q len).1 := by
            rcases addCode_nonneg_cases q len with h | h | h <;>
              rw [addQuestion_fst] at h1 h2 ⊢ <;> omega
          obtain ⟨fs, hfs, -⟩ := addQuestion_added_fields e q len h0
          have hpos : 0 < (addQuestion e q len).2.fields.length := by
            rw [hfs]
            simp only [List.length_append]
            omega
          obtain ⟨d, hd, hda⟩ :=
            ih (some q.asker) (len + (addQuestion e q len).1) (addQuestion e q len).2 hpos
          exact ⟨d, hd, by rw [hda, addQuestion_snd_asker]⟩

theorem emitCount_some (b : Bool) : emitCount (some b) = if b then 1 else 0 := by
  cases b <;> rfl

theorem docs_index_lift (pre tail : List Embed) (k dc x : Nat)
    (hk : dc + pre.length ≤ k)
    (h : ∃ d, tail[k - (dc + pre.length)]? = some d ∧ d.asker.id = x) :
    ∃ d, (pre ++ tail)[k - dc]? = some d ∧ d.asker.id = x := by
  obtain ⟨d, hd, hx⟩ := h
  refine ⟨d, ?_, hx⟩
  rw [List.getElem?_append_right (by omega)]
  have harith : k - dc - pre.length = k - (dc + pre.length) := by omega
  rw [harith]
  exact hd

/-- Simulation between the outcome bookkeeping and the generator itself:
whenever `outcomesAux` records that record `j` was placed as part of the
`k`-th emitted document, the corresponding generator run (from a matching
state) really does emit a `k - dc`-th document, and that document is
authored by record `j`'s asker. -/
theorem outcomes_sim (iv : Str) (qs : List Question) :
    ∀ (la : Option Asker) (len : Int) (em : Option Embed) (dc : Nat)
      (laId : Option Nat) (emB : Option Bool),
      laId = la.map Asker.id →
      emB = em.map (fun e => decide (0 < e.fields.length)) →
      (∀ e a, em = some e → la = some a → e.asker.id = a.id) →
      ∀ (j : Nat) (q : Question) (k : Nat),
        qs[j]? = some q →
        (outcomesAux laId len emB dc qs)[j]? = some (Outcome.placed k) →
        dc ≤ k ∧ ∃ d, (docsOf (genAux iv la len em qs))[k - dc]? = some d
          ∧ d.asker.id = q.asker.id := by
  induction qs with
  | nil =>
    intro la len em dc laId emB _ _ _ j q k _ hk
    rw [outcomesAux_nil] at hk
    simp at hk
  | cons q0 qs ih =>
    intro la len em dc laId emB hla hem hAuth j q k hq hk
    have hid : idChangedB laId q0.asker.id = askerChangedB la q0.asker := by
      rw [hla, ← askerChangedB_eq_idChangedB]
    by_cases hch : askerChangedB la q0.asker = true
    · -- asker change: flush the current embed, start a blank one for q0.asker
      rw [outcomesAux_cons_of_changed _ _ _ _ _ _ (by rw [hid]; exact hch)] at hk
      rw [genAux_cons_of_changed iv la len em q0 qs hch]
      have rc : (addQuestion (blankEmbed iv q0.asker) q0 0).1 = addCode q0 0 :=
        addQuestion_fst _ _ _
      have hpre : (docsOf (emitList em)).length = emitCount emB := by
        rw [docsOf_emitList_length, hem]
      by_cases h1 : addCode q0 0 = -1
      · rw [if_pos h1] at hk
        rw [if_pos (by omega : (addQuestion (blankEmbed iv q0.asker) q0 0).1 = -1)]
        have hsnd : (addQuestion (blankEmbed iv q0.asker) q0 0).2 = blankEmbed iv q0.asker :=
          addQuestion_snd_of_neg _ _ _ (by omega)
        rcases j with _ | j'
        · simp at hk
        · simp only [List.getElem?_cons_succ] at hk hq
          rw [hsnd, emitList_some_zero (by simp [blankEmbed])]
          obtain ⟨hk1, hd1⟩ := ih (some q0.asker) (0 + addCode q0 0)
            (some (blankEmbed iv q0.asker)) (dc + emitCount emB)
            (some q0.asker.id) (some false) (by simp)
            (by simp [blankEmbed])
            (by intro e a he ha; cases he; cases ha; rfl)
            j' q k hq hk
          refine ⟨by omega, ?_⟩
          rw [docsOf_append, List.nil_append, rc]
          exact docs_index_lift _ _ k dc q.asker.id (by omega) (by rw [hpre]; exact hd1)
      · by_cases h2 : addCode q0 0 = -2
        · rw [if_neg h1, if_pos h2] at hk
          rw [if_neg (by omega : ¬(addQuestion (blankEmbed iv q0.asker) q0 0).1 = -1),
            if_pos (by omega : (addQuestion (blankEmbed iv q0.asker) q0 0).1 = -2)]
          have hsnd : (addQuestion (blankEmbed iv q0.asker) q0 0).2 = blankEmbed iv q0.asker :=
            addQuestion_snd_of_neg _ _ _ (by omega)
          rcases j with _ | j'
          · simp at hk
          · simp only [List.getElem?_cons_succ] at hk hq
            rw [hsnd]
            obtain ⟨hk1, hd1⟩ := ih (some q0.asker) (0 + addCode q0 0)
              (some (blankEmbed iv q0.asker)) (dc + emitCount emB)
              (some q0.asker.id) (some false) (by simp)
              (by simp [blankEmbed])
              (by intro e a he ha; cases he; cases ha; rfl)
              j' q k hq hk
            refine ⟨by omega, ?_⟩
            rw [docsOf_append, docsOf_cons_rejected, rc]
            exact docs_index_lift _ _ k dc q.asker.id (by omega) (by rw [hpre]; exact hd1)
        · have h0 : 0 ≤ addCode q0 0 := by
            rcases addCode_nonneg_cases q0 0 with h | h | h <;> omega
          rw [if_neg h1, if_neg h2] at hk
          rw [if_neg (by omega : ¬(addQuestion (blankEmbed iv q0.asker) q0 0).1 = -1),
            if_neg (by omega : ¬(addQuestion (blankEmbed iv q0.asker) q0 0).1 = -2)]
          obtain ⟨fs, hfs, hfsne⟩ := addQuestion_added_fields (blankEmbed iv q0.asker) q0 0
            (by omega)
          have hpos : 0 < (addQuestion (blankEmbed iv q0.asker) q0 0).2.fields.length := by
            rw [hfs, List.length_append]
            have := List.length_pos.mpr hfsne
            omega
          have haskr : (addQuestion (blankEmbed iv q0.asker) q0 0).2.asker = q0.asker := by
            rw [addQuestion_snd_asker]
            rfl
          rcases j with _ | j'
          · simp only [List.getElem?_cons_zero, Option.some_inj] at hk hq
            have hkeq : dc + emitCount emB = k := by cases hk; rfl
            refine ⟨by omega, ?_⟩
            rw [docsOf_append]
            refine docs_index_lift _ _ k dc q.asker.id (by omega) ?_
            rw [hpre]
            have hidx : k - (dc + emitCount emB) = 0 := by omega
            rw [hidx]
            obtain ⟨d, hd, hda⟩ := genAux_firstDoc iv qs (some q0.asker)
              (0 + (addQuestion (blankEmbed iv q0.asker) q0 0).1)
              (addQuestion (blankEmbed iv q0.asker) q0 0).2 hpos
            refine ⟨d, hd, ?_⟩
            rw [hda, haskr, ← hq]
          · simp only [List.getElem?_cons_succ] at hk hq
            obtain ⟨hk1, hd1⟩ := ih (some q0.asker) (0 + addCode q0 0)
              (some (addQuestion (blankEmbed iv q0.asker) q0 0).2) (dc + emitCount emB)
              (some q0.asker.id) (some true) (by simp)
              (by simp [hpos])
              (by intro e a he ha; cases he; cases ha; rw [haskr])
              j' q k hq hk
            refine ⟨by omega, ?_⟩
            rw [docsOf_append, rc]
            exact docs_index_lift _ _ k dc q.asker.id (by omega) (by rw [hpre]; exact hd1)
    · -- same asker as the previous record: no flush, no reset
      have hch' : askerChangedB la q0.asker = false := by simpa using hch
      rcases la with _ | a
      · simp [askerChangedB] at hch'
      have haid : a.id = q0.asker.id := by
        simpa [askerChangedB] using hch'
      rcases em with _ | e
      · rw [genAux_cons_none_same iv (some a) len q0 qs hch']
        have hemn : emB = none := by rw [hem]; rfl
        rw [hemn] at hk
        rw [outcomesAux_cons_none_same _ _ _ _ _ (by rw [hid]; exact hch')] at hk
        simp at hk
      have hasF : emB = some (decide (0 < e.fields.length)) := by
        rw [hem]; rfl
      have heid : e.asker.id = q0.asker.id := by
        rw [hAuth e a rfl rfl, haid]
      rw [hasF] at hk
      rw [outcomesAux_cons_of_same _ _ _ _ _ _ (by rw [hid]; exact hch')] at hk
      rw [genAux_cons_of_same iv (some a) len e q0 qs hch']
      have rc : (addQuestion e q0 len).1 = addCode q0 len := addQuestion_fst _ _ _
      have hpre : (docsOf (emitList (some e))).length
          = if decide (0 < e.fields.length) then 1 else 0 := by
        rw [docsOf_emitList_length]
        simp [emitCount_some]
      by_cases h1 : addCode q0 len = -1
      · rw [if_pos h1] at hk
        rw [if_pos (by omega : (addQuestion e q0 len).1 = -1)]
        have hsnd : (addQuestion e q0 len).2 = e :=
          addQuestion_snd_of_neg _ _ _ (by omega)
        rcases j with _ | j'
        · simp at hk
        · simp only [List.getElem?_cons_succ] at hk hq
          rw [hsnd]
          obtain ⟨hk1, hd1⟩ := ih (some q0.asker) (len + addCode q0 len)
            (some (blankEmbed iv q0.asker))
            (dc + (if decide (0 < e.fields.length) then 1 else 0))
            (some q0.asker.id) (some false) (by simp)
            (by simp [blankEmbed])
            (by intro e' a' he ha; cases he; cases ha; rfl)
            j' q k hq hk
          refine ⟨by omega, ?_⟩
          rw [docsOf_append, rc]
          exact docs_index_lift _ _ k dc q.asker.id (by omega) (by rw [hpre]; exact hd1)
      · by_cases h2 : addCode q0 len = -2
        · rw [if_neg h1, if_pos h2] at hk
          rw [if_neg (by omega : ¬(addQuestion e q0 len).1 = -1),
            if_pos (by omega : (addQuestion e q0 len).1 = -2)]
          have hsnd : (addQuestion e q0 len).2 = e :=
            addQuestion_snd_of_neg _ _ _ (by omega)
          rcases j with _ | j'
          · simp at hk
          · simp only [List.getElem?_cons_succ] at hk hq
            rw [hsnd]
            obtain ⟨hk1, hd1⟩ := ih (some q0.asker) (len + addCode q0 len)
              (some e) dc
              (some q0.asker.id) (some (decide (0 < e.fields.length))) (by simp)
              (by simp)
              (by intro e' a' he ha; cases he; cases ha; exact heid)
              j' q k hq hk
            refine ⟨hk1, ?_⟩
            rw [docsOf_cons_rejected, rc]
            exact hd1
        · have h0 : 0 ≤ addCode q0 len := by
            rcases addCode_nonneg_cases q0 len with h | h | h <;> omega
          rw [if_neg h1, if_neg h2] at hk
          rw [if_neg (by omega : ¬(addQuestion e q0 len).1 = -1),
            if_neg (by omega : ¬(addQuestion e q0 len).1 = -2)]
          obtain ⟨fs, hfs, hfsne⟩ := addQuestion_added_fields e q0 len (by omega)
          have hpos : 0 < (addQuestion e q0 len).2.fields.length := by
            rw [hfs, List.length_append]
            have := List.length_pos.mpr hfsne
            omega
          have haskr : (addQuestion e q0 len).2.asker = e.asker := addQuestion_snd_asker _ _ _
          rcases j with _ | j'
          · simp only [List.getElem?_cons_zero, Option.some_inj] at hk hq
            have hkeq : dc = k := by cases hk; rfl
            refine ⟨by omega, ?_⟩
            have hidx : k - dc = 0 := by omega
            rw [hidx]
            obtain ⟨d, hd, hda⟩ := genAux_firstDoc iv qs (some q0.asker)
              (len + (addQuestion e q0 len).1) (addQuestion e q0 len).2 hpos
            refine ⟨d, hd, ?_⟩
            rw [hda, haskr, heid, ← hq]
          · simp only [List.getElem?_cons_succ] at hk hq
            obtain ⟨hk1, hd1⟩ := ih (some q0.asker) (len + addCode q0 len)
              (some (addQuestion e q0 len).2) dc
              (some q0.asker.id) (some true) (by simp)
              (by simp [hpos])
              (by intro e' a' he ha; cases he; cases ha; rw [haskr]; exact heid)
              j' q k hq hk
            refine ⟨hk1, ?_⟩
            rw [rc]
            exact hd1

/-- Shape of one step of the outcome bookkeeping: the step either aborts
(the unreachable embed-less state) or prepends one outcome and recurses;
when the head outcome is `placed m`, the continuation starts from a
nonempty current embed and document count `m`. -/
theorem outcomesAux_cons_shape (la : Option Nat) (len : Int) (em : Option Bool)
    (dc : Nat) (q0 : Question) (qs : List Question) :
    outcomesAux la len em dc (q0 :: qs) = [] ∨
    ∃ (o : Outcome) (len' : Int) (b : Bool) (dc' : Nat),
      outcomesAux la len em dc (q0 :: qs)
        = o :: outcomesAux (some q0.asker.id) len' (some b) dc' qs
      ∧ ∀ m, o = Outcome.placed m → b = true ∧ dc' = m := by
  by_cases hch : idChangedB la q0.asker.id = true
  · rw [outcomesAux_cons_of_changed _ _ _ _ _ _ hch]
    by_cases h1 : addCode q0 0 = -1
    · rw [if_pos h1]
      exact Or.inr ⟨Outcome.dropped, _, false, _, rfl, by intro m hm; simp at hm⟩
    · by_cases h2 : addCode q0 0 = -2
      · rw [if_neg h1, if_pos h2]
        exact Or.inr ⟨Outcome.rejected, _, false, _, rfl, by intro m hm; simp at hm⟩
      · rw [if_neg h1, if_neg h2]
        refine Or.inr ⟨Outcome.placed (dc + emitCount em), _, true, _, rfl, ?_⟩
        intro m hm
        cases hm
        exact ⟨rfl, rfl⟩
  · have hch' : idChangedB la q0.asker.id = false := by simpa using hch
    rcases em with _ | hasF
    · rw [outcomesAux_cons_none_same _ _ _ _ _ hch']
      exact Or.inl rfl
    · rw [outcomesAux_cons_of_same _ _ _ _ _ _ hch']
      by_cases h1 : addCode q0 len = -1
      · rw [if_pos h1]
        exact Or.inr ⟨Outcome.dropped, _, false, _, rfl, by intro m hm; simp at hm⟩
      · by_cases h2 : addCode q0 len = -2
        · rw [if_neg h1, if_pos h2]
          exact Or.inr ⟨Outcome.rejected, _, hasF, _, rfl, by intro m hm; simp at hm⟩
        · rw [if_neg h1, if_neg h2]
          refine Or.inr ⟨Outcome.placed dc, _, true, _, rfl, ?_⟩
          intro m hm
          cases hm
          exact ⟨rfl, rfl⟩

/-- Consecutive records that are both placed: same asker keeps them in the
same document, a different asker moves the second one to exactly the next
document. -/
theorem outcomes_consecutive (qs : List Question) :
    ∀ (la : Option Nat) (len : Int) (em : Option Bool) (dc : Nat)
      (j : Nat) (q q' : Question) (k k' : Nat),
      qs[j]? = some q → qs[j + 1]? = some q' →
      (outcomesAux la len em dc qs)[j]? = some (Outcome.placed k) →
      (outcomesAux la len em dc qs)[j + 1]? = some (Outcome.placed k') →
      (q.asker.id = q'.asker.id → k' = k)
        ∧ (q.asker.id ≠ q'.asker.id → k' = k + 1) := by
  induction qs with
  | nil =>
    intro la len em dc j q q' k k' hq _ _ _
    simp at hq
  | cons q0 qs ih =>
    intro la len em dc j q q' k k' hq hq' hk hk'
    rcases outcomesAux_cons_shape la len em dc q0 qs with hsh | ⟨o, len1, b, dc1, hsh, hpl⟩
    · rw [hsh] at hk
      simp at hk
    · rw [hsh] at hk hk'
      rcases j with _ | j''
      · -- the pair is the head record and the one after it
        simp only [List.getElem?_cons_zero, Option.some_inj] at hk hq
        obtain ⟨hb, hdc⟩ := hpl k hk
        subst hb hdc
        simp only [List.getElem?_cons_succ] at hk' hq'
        rcases qs with _ | ⟨q1, qs''⟩
        · simp at hq'
        simp only [List.getElem?_cons_zero, Option.some_inj] at hk' hq'
        subst hq hq'
        by_cases hsame : q0.asker.id = q1.asker.id
        · have hch2 : idChangedB (some q0.asker.id) q1.asker.id = false := by
            simp [idChangedB, hsame]
          rw [outcomesAux_cons_of_same _ _ _ _ _ _ hch2] at hk'
          refine ⟨fun _ => ?_, fun hne => absurd hsame hne⟩
          by_cases h1 : addCode q1 len1 = -1
          · rw [if_pos h1] at hk'
            simp at hk'
          · by_cases h2 : addCode q1 len1 = -2
            · rw [if_neg h1, if_pos h2] at hk'
              simp at hk'
            · rw [if_neg h1, if_neg h2] at hk'
              simp only [List.getElem?_cons_zero, Option.some_inj] at hk'
              injection hk' with h'
              exact h'.symm
        · have hch2 : idChangedB (some q0.asker.id) q1.asker.id = true := by
            simp [idChangedB]
            exact hsame
          rw [outcomesAux_cons_of_changed _ _ _ _ _ _ hch2] at hk'
          refine ⟨fun heq => absurd heq hsame, fun _ => ?_⟩
          by_cases h1 : addCode q1 0 = -1
          · rw [if_pos h1] at hk'
            simp at hk'
          · by_cases h2 : addCode q1 0 = -2
            · rw [if_neg h1, if_pos h2] at hk'
              simp at hk'
            · rw [if_neg h1, if_neg h2] at hk'
              simp only [List.getElem?_cons_zero, Option.some_inj] at hk'
              injection hk' with h'
              rw [← h']
              simp [emitCount]
      · -- both records are in the tail
        simp only [List.getElem?_cons_succ] at hk hk' hq hq'
        exact ih (some q0.asker.id) len1 (some b) dc1 j'' q q' k k' hq hq' hk hk'

theorem fieldsLen_single (f : Field) :
    fieldsLen [f] = f.name.length + f.value.length := by
  simp [fieldsLen]

theorem fieldsLen_singleBlock (q : Question) :
    fieldsLen [{ name := singleName q, value := singleValue q }] = textLen q := by
  simp [fieldsLen, textLen]

/-! One-step corollaries of the generator equations, for a known
`addQuestion` result. -/

theorem genAux_step_changed_neg1 (iv : Str) (la : Option Asker) (len : Int)
    (em : Option Embed) (e' : Embed) (q : Question) (qs : List Question)
    (hch : askerChangedB la q.asker = true)
    (hadd : addQuestion (blankEmbed iv q.asker) q 0 = (-1, e')) :
    genAux iv la len em (q :: qs)
      = emitList em ++ emitList (some e')
        ++ genAux iv (some q.asker) (0 + -1) (some (blankEmbed iv q.asker)) qs := by
  rw [genAux_cons_of_changed iv la len em q qs hch, hadd]
  simp

theorem genAux_step_changed_neg2 (iv : Str) (la : Option Asker) (len : Int)
    (em : Option Embed) (e' : Embed) (q : Question) (qs : List Question)
    (hch : askerChangedB la q.asker = true)
    (hadd : addQuestion (blankEmbed iv q.asker) q 0 = (-2, e')) :
    genAux iv la len em (q :: qs)
      = emitList em ++ Output.rejected q :: genAux iv (some q.asker) (0 + -2) (some e') qs := by
  rw [genAux_cons_of_changed iv la len em q qs hch, hadd]
  simp

theorem genAux_step_changed_add (iv : Str) (la : Option Asker) (len : Int)
    (em : Option Embed) (e' : Embed) (tl : Nat) (q : Question) (qs : List Question)
    (hch : askerChangedB la q.asker = true)
    (hadd : addQuestion (blankEmbed iv q.asker) q 0 = ((tl : Int), e')) :
    genAux iv la len em (q :: qs)
      = emitList em ++ genAux iv (some q.asker) (0 + (tl : Int)) (some e') qs := by
  rw [genAux_cons_of_changed iv la len em q qs hch, hadd]
  have h1 : ¬((tl : Int), e').1 = -1 := by simp
  have h2 : ¬((tl : Int), e').1 = -2 := by simp
  rw [if_neg h1, if_neg h2]

theorem genAux_step_same_neg1 (iv : Str) (la : Option Asker) (len : Int)
    (e e' : Embed) (q : Question) (qs : List Question)
    (hch : askerChangedB la q.asker = false)
    (hadd : addQuestion e q len = (-1, e')) :
    genAux iv la len (some e) (q :: qs)
      = emitList (some e')
        ++ genAux iv (some q.asker) (len + -1) (some (blankEmbed iv q.asker)) qs := by
  rw [genAux_cons_of_same iv la len e q qs hch, hadd]
  simp

theorem genAux_step_same_neg2 (iv : Str) (la : Option Asker) (len : Int)
    (e e' : Embed) (q : Question) (qs : List Question)
    (hch : askerChangedB la q.asker = false)
    (hadd : addQuestion e q len = (-2, e')) :
    genAux iv la len (some e) (q :: qs)
      = Output.rejected q :: genAux iv (some q.asker) (len + -2) (some e') qs := by
  rw [genAux_cons_of_same iv la len e q qs hch, hadd]
  simp

theorem genAux_step_same_add (iv : Str) (la : Option Asker) (len : Int)
    (e e' : Embed) (tl : Nat) (q : Question) (qs : List Question)
    (hch : askerChangedB la q.asker = false)
    (hadd : addQuestion e q len = ((tl : Int), e')) :
    genAux iv la len (some e) (q :: qs)
      = genAux iv (some q.asker) (len + (tl : Int)) (some e') qs := by
  rw [genAux_cons_of_same iv la len e q qs hch, hadd]
  have h1 : ¬((tl : Int), e').1 = -1 := by simp
  have h2 : ¬((tl : Int), e').1 = -2 := by simp
  rw [if_neg h1, if_neg h2]

/-- Membership in the documents yielded by `emitList`. -/
theorem docsOf_emitList_sub (em : Option Embed)
    (h : ∀ e, em = some e → fieldsLen e.fields ≤ 4800) :
    ∀ d ∈ docsOf (emitList em), fieldsLen d.fields ≤ 4800 := by
  intro d hd
  rcases em with _ | e
  · simp [emitList, docsOf] at hd
  · by_cases hpos : 0 < e.fields.length
    · rw [emitList_some_pos hpos] at hd
      simp only [docsOf_cons_doc, docsOf_nil, List.mem_singleton] at hd
      subst hd
      exact h _ rfl
    · rw [emitList_some_zero hpos] at hd
      simp [docsOf] at hd

/-- Invariant for the amended document-ceiling claim: when every input
record passes the single-block test with a block of at most 4800
characters, the running `length` dominates the accumulated block lengths of
the current embed and every emitted document stays within 4800. -/
theorem genAux_blockSum (iv : Str) (qs : List Question) :
    ∀ (la : Option Asker) (len : Int) (em : Option Embed),
      (∀ q ∈ qs, singleFit q = true ∧ textLen q ≤ 4800) →
      (∀ e, em = some e → fieldsLen e.fields ≤ 4800 ∧ ((fieldsLen e.fields : Nat) : Int) ≤ len) →
      ∀ d ∈ docsOf (genAux iv la len em qs), fieldsLen d.fields ≤ 4800 := by
  induction qs with
  | nil =>
    intro la len em _ hinv d hd
    rw [genAux_nil] at hd
    exact docsOf_emitList_sub em (fun e he => (hinv e he).1) d hd
  | cons q0 qs ih =>
    intro la len em hqs hinv d hd
    obtain ⟨hsf, htl⟩ := hqs q0 (List.mem_cons_self q0 qs)
    have hqs' : ∀ q ∈ qs, singleFit q = true ∧ textLen q ≤ 4800 :=
      fun q hq => hqs q (List.mem_cons_of_mem q0 hq)
    have hbig : ¬ 4800 < ((textLen q0 : Nat) : Int) := by
      omega
    by_cases hch : askerChangedB la q0.asker = true
    · -- asker change: emit the old embed, start from a blank one
      have hadd := addQuestion_single_eq (blankEmbed iv q0.asker) q0 0 hsf
      rw [if_neg hbig, if_neg (by omega)] at hadd
      rw [genAux_step_changed_add iv la len em _ (textLen q0) q0 qs hch hadd] at hd
      rw [docsOf_append, List.mem_append] at hd
      rcases hd with hd | hd
      · exact docsOf_emitList_sub em (fun e he => (hinv e he).1) d hd
      · refine ih (some q0.asker) _ _ hqs' ?_ d hd
        intro e he
        cases he
        rw [show ({ blankEmbed iv q0.asker with
            fields := (blankEmbed iv q0.asker).fields
              ++ [{ name := singleName q0, value := singleValue q0 }] } : Embed).fields
          = [{ name := singleName q0, value := singleValue q0 }] from by simp [blankEmbed]]
        rw [fieldsLen_singleBlock]
        omega
    · have hch' : askerChangedB la q0.asker = false := by simpa using hch
      rcases em with _ | e
      · rw [genAux_cons_none_same iv la len q0 qs hch'] at hd
        simp [docsOf] at hd
      obtain ⟨hE1, hE2⟩ := hinv e rfl
      have hadd := addQuestion_single_eq e q0 len hsf
      rw [if_neg hbig] at hadd
      by_cases hfull : 4800 < len + ((textLen q0 : Nat) : Int)
      · -- document full: the embed is sealed, a blank embed continues
        rw [if_pos hfull] at hadd
        rw [genAux_step_same_neg1 iv la len e e q0 qs hch' hadd] at hd
        rw [docsOf_append, List.mem_append] at hd
        rcases hd with hd | hd
        · exact docsOf_emitList_sub (some e) (fun e' he' => by cases he'; exact hE1) d hd
        · refine ih (some q0.asker) _ _ hqs' ?_ d hd
          intro e' he'
          cases he'
          rw [show (blankEmbed iv q0.asker).fields = [] from rfl]
          constructor
          · simp [fieldsLen]
          · have : (0 : Int) ≤ len + -1 := by omega
            simpa [fieldsLen] using this
      · -- the block is appended to the current embed
        rw [if_neg hfull] at hadd
        rw [genAux_step_same_add iv la len e _ (textLen q0) q0 qs hch' hadd] at hd
        refine ih (some q0.asker) _ _ hqs' ?_ d hd
        intro e' he'
        cases he'
        rw [show ({ e with fields := e.fields
            ++ [{ name := singleName q0, value := singleValue q0 }] } : Embed).fields
          = e.fields ++ [{ name := singleName q0, value := singleValue q0 }] from rfl]
        rw [fieldsLen_append, fieldsLen_singleBlock]
        constructor
        · omega
        · push_cast
          omega

/-- Any record that fails the single-block test and whose raw
question+answer length exceeds 4700 is passed through as a rejected
output, from any reachable generator state. -/
theorem genAux_rejected_mem (iv : Str) (qs : List Question) :
    ∀ (la : Option Asker) (len : Int) (em : Option Embed),
      (∀ a, la = some a → ∃ e, em = some e) →
      ∀ q ∈ qs, singleFit q = false → 4700 < q.question.length + q.answer.length →
        Output.rejected q ∈ genAux iv la len em qs := by
  induction qs with
  | nil =>
    intro la len em _ q hq
    simp at hq
  | cons q0 qs ih =>
    intro la len em hgood q hq hsf hbig
    have hrej : ∀ (e' : Embed) (cur : Int), addQuestion e' q cur = (-2, e') := by
      intro e' cur
      rw [addQuestion_split_eq e' q cur hsf, if_pos (by push_cast; omega)]
    rcases List.mem_cons.mp hq with rfl | hq'
    · -- the record itself is at the head
      by_cases hch : askerChangedB la q.asker = true
      · rw [genAux_step_changed_neg2 iv la len em _ q qs hch (hrej _ 0)]
        exact List.mem_append_right _ (List.mem_cons_self _ _)
      · have hch' : askerChangedB la q.asker = false := by simpa using hch
        have hla : ∃ a, la = some a := by
          rcases la with _ | a
          · simp [askerChangedB] at hch'
          · exact ⟨a, rfl⟩
        obtain ⟨a, rfl⟩ := hla
        obtain ⟨e, rfl⟩ := hgood a rfl
        rw [genAux_step_same_neg2 iv (some a) len e e q qs hch' (hrej _ len)]
        exact List.mem_cons_self _ _
    · -- the record is in the tail: step once and recurse
      by_cases hch : askerChangedB la q0.asker = true
      · rw [genAux_cons_of_changed iv la len em q0 qs hch]
        refine List.mem_append_right _ ?_
        by_cases h1 : (addQuestion (blankEmbed iv q0.asker) q0 0).1 = -1
        · rw [if_pos h1]
          refine List.mem_append_right _ ?_
          exact ih (some q0.asker) _ (some (blankEmbed iv q0.asker))
            (fun a' ha' => ⟨_, rfl⟩) q hq' hsf hbig
        · by_cases h2 : (addQuestion (blankEmbed iv q0.asker) q0 0).1 = -2
          · rw [if_neg h1, if_pos h2]
            refine List.mem_cons_of_mem _ ?_
            exact ih (some q0.asker) _ (some (addQuestion (blankEmbed iv q0.asker) q0 0).2)
              (fun a' ha' => ⟨_, rfl⟩) q hq' hsf hbig
          · rw [if_neg h1, if_neg h2]
            exact ih (some q0.asker) _ (some (addQuestion (blankEmbed iv q0.asker) q0 0).2)
              (fun a' ha' => ⟨_, rfl⟩) q hq' hsf hbig
      · have hch' : askerChangedB la q0.asker = false := by simpa using hch
        have hla : ∃ a, la = some a := by
          rcases la with _ | a
          · simp [askerChangedB] at hch'
          · exact ⟨a, rfl⟩
        obtain ⟨a, rfl⟩ := hla
        obtain ⟨e, rfl⟩ := hgood a rfl
        rw [genAux_cons_of_same iv (some a) len e q0 qs hch']
        by_cases h1 : (addQuestion e q0 len).1 = -1
        · rw [if_pos h1]
          refine List.mem_append_right _ ?_
          exact ih (some q0.asker) _ (some (blankEmbed iv q0.asker))
            (fun a' ha' => ⟨_, rfl⟩) q hq' hsf hbig
        · by_cases h2 : (addQuestion e q0 len).1 = -2
          · rw [if_neg h1, if_pos h2]
            refine List.mem_cons_of_mem _ ?_
            exact ih (some q0.asker) _ (some (addQuestion e q0 len).2)
              (fun a' ha' => ⟨_, rfl⟩) q hq' hsf hbig
          · rw [if_neg h1, if_neg h2]
            exact ih (some q0.asker) _ (some (addQuestion e q0 len).2)
              (fun a' ha' => ⟨_, rfl⟩) q hq' hsf hbig

/-- A one-record run: the record is added to the blank embed and that embed
is emitted as the single output document. -/
theorem genEmbeds_one (iv : Str) (q : Question) (tl : Nat) (e' : Embed)
    (hadd : addQuestion (blankEmbed iv q.asker) q 0 = ((tl : Int), e'))
    (hpos : 0 < e'.fields.length) :
    genEmbeds iv [q] = [Output.doc e'] := by
  rw [genEmbeds, genAux_step_changed_add iv none 0 none e' tl q [] rfl hadd, genAux_nil,
    emitList_none, emitList_some_pos hpos]
  simp

/-! ## The claims -/

/-- C10: error atomicity of `add_question` — whenever the call returns one
of the error codes `-1` (document full) or `-2` (record too long), it
returns before any `add_field` call, so the embed is exactly what it was
before the call. -/
theorem c10_error_atomicity (em : Embed) (q : Question) (cur : Int)
    (h : (addQuestion em q cur).1 = -1 ∨ (addQuestion em q cur).1 = -2) :
    (addQuestion em q cur).2 = em := by
  refine addQuestion_snd_of_neg em q cur ?_
  rcases h with h | h <;> omega

/-- Witness for C10 at a concrete input: a record of 301 newlines against a
current length of 9000 produces the document-full code `-1` and leaves the
embed untouched. -/
theorem c10_error_atomicity_witness :
    ((addQuestion (blankEmbed ivTest askA) c7q 9000).1 = -1
      ∨ (addQuestion (blankEmbed ivTest askA) c7q 9000).1 = -2)
    ∧ (addQuestion (blankEmbed ivTest askA) c7q 9000).2 = blankEmbed ivTest askA :=
  ⟨by decide, c10_error_atomicity (blankEmbed ivTest askA) c7q 9000 (by decide)⟩

/-- C7, counterexample: the claim says a record on the split path is
appended exactly when `q+a ≤ 4700` and `current + (q+a) ≤ 4800`.  The code
tests `current + (q+a) > 4700` (interview.py line 258), so at
`current = 4450` a 301-character record satisfies the claimed condition
(`4751 ≤ 4800`) yet `add_question` returns `-1` and appends nothing. -/
theorem c7_split_fit_counterexample :
    singleFit c7q = false
    ∧ c7q.question.length + c7q.answer.length ≤ 4700
    ∧ (4450 : Int) + ((c7q.question.length + c7q.answer.length : Nat) : Int) ≤ 4800
    ∧ addQuestion (blankEmbed ivTest askA) c7q 4450 = (-1, blankEmbed ivTest askA) := by
  refine ⟨by decide, by decide, by decide, by decide⟩

/-- C7, amended: a record that fails the single-block test is split and
appended exactly when `q+a ≤ 4700` and `current + (q+a) ≤ 4700` (the code
uses 4700, not 4800, for the document-occupancy test on this path); when it
is appended, the question chunks and then the answer chunks are appended to
the embed's fields. -/
theorem c7_split_fit_amended (em : Embed) (q : Question) (cur : Int)
    (hsf : singleFit q = false) :
    (0 ≤ (addQuestion em q cur).1 ↔
      (q.question.length + q.answer.length ≤ 4700
        ∧ cur + ((q.question.length + q.answer.length : Nat) : Int) ≤ 4700))
    ∧ (0 ≤ (addQuestion em q cur).1 →
        (addQuestion em q cur).2.fields = em.fields ++ qFields q ++ aFields q) := by
  rw [addQuestion_split_eq em q cur hsf]
  by_cases h1 : 4700 < ((q.question.length + q.answer.length : Nat) : Int)
  · rw [if_pos h1]
    constructor
    · simp only []
      constructor
      · intro h; omega
      · intro ⟨ha, _⟩
        exfalso
        omega
    · intro h
      simp only [] at h
      omega
  · rw [if_neg h1]
    by_cases h2 : 4700 < cur + ((q.question.length + q.answer.length : Nat) : Int)
    · rw [if_pos h2]
      constructor
      · simp only []
        constructor
        · intro h; omega
        · intro ⟨_, hb⟩
          exfalso
          omega
      · intro h
        simp only [] at h
        omega
    · rw [if_neg h2]
      constructor
      · simp only []
        constructor
        · intro _
          constructor
          · omega
          · omega
        · intro _
          exact Int.natCast_nonneg _
      · intro _
        simp

/-- The single-fit test fails for the witness record `wqSplit`. -/
theorem wqSplit_not_singleFit : singleFit wqSplit = false := by
  have hql : questionLines wqSplit = [List.replicate 901 'a'] :=
    questionLines_replicate wqSplit 'a' 901 rfl (by decide) (by decide) (by decide) (by decide)
  have hlhs : singleFitLHS wqSplit = 909 := by
    rw [singleFitLHS, hql]
    simp only [List.map_cons, List.map_nil, List.sum_cons, List.sum_nil,
      List.length_replicate, List.length_cons, List.length_nil]
    rw [show wqSplit.answer.length = 5 from rfl]
    omega
  simp only [singleFit, hlhs]
  decide

/-- Witness for C7-amended at a concrete split-path record. -/
theorem c7_split_fit_amended_witness :
    singleFit wqSplit = false
    ∧ ((0 ≤ (addQuestion (blankEmbed ivTest askA) wqSplit 0).1 ↔
        (wqSplit.question.length + wqSplit.answer.length ≤ 4700
          ∧ (0 : Int) + ((wqSplit.question.length + wqSplit.answer.length : Nat) : Int) ≤ 4700))
      ∧ (0 ≤ (addQuestion (blankEmbed ivTest askA) wqSplit 0).1 →
          (addQuestion (blankEmbed ivTest askA) wqSplit 0).2.fields
            = (blankEmbed ivTest askA).fields ++ qFields wqSplit ++ aFields wqSplit)) :=
  ⟨wqSplit_not_singleFit,
    c7_split_fit_amended (blankEmbed ivTest askA) wqSplit 0 wqSplit_not_singleFit⟩

/-- C8, counterexample: the claim says brackets in the answer text are
escaped in both paths.  On the single-block path the answer is appended
verbatim (interview.py line 248 uses `question.answer`, not the escaped
text): for a record with answer `[x]` the produced body ends in the raw
`[x]` with an unescaped bracket. -/
theorem c8_escaping_counterexample :
    genEmbeds ivTest [c8q] = [Output.doc c8emb]
    ∧ (singleValue c8q).drop 10 = c8q.answer
    ∧ bracketsEscaped ((singleValue c8q).drop 10) = false
    ∧ escape c8q.answer ≠ c8q.answer := by
  refine ⟨by decide, by decide, by decide, by decide⟩

theorem chunkFields_singleton (label : Str) (num : Nat) (c : Str) :
    chunkFields label num [c] = [{ name := label ++ Nat.toDigits 10 num, value := c }] := by
  simp [chunkFields, chunkName]

/-- The single-fit test fails for the C3 counterexample record. -/
theorem c3q_not_singleFit : singleFit c3q = false := by
  have hql : questionLines c3q = [List.replicate 901 'a'] :=
    questionLines_replicate c3q 'a' 901 rfl (by decide) (by decide) (by decide) (by decide)
  have hlhs : singleFitLHS c3q = 1805 := by
    rw [singleFitLHS, hql]
    simp only [List.map_cons, List.map_nil, List.sum_cons, List.sum_nil,
      List.length_replicate, List.length_cons, List.length_nil]
    rw [show c3q.answer.length = 901 from by
      rw [show c3q.answer = List.replicate 901 'b' from rfl, List.length_replicate]]
    omega
  simp only [singleFit, hlhs]
  decide

theorem c3q_qChunks : qChunks c3q = [c3chunk] := by
  rw [qChunks, wordsQ_replicate c3q 'a' 901 rfl (by decide) (by decide) (by decide)]
  simp only [qChunksLoop]
  rw [if_neg (by decide : ¬ 900 < ("[> ".toList).length),
    expandNL_replicate_of 'a' 901 (by decide)]
  rfl

theorem c3q_aChunks : aChunks c3q = [List.replicate 901 'b' ++ [' ']] := by
  rw [aChunks, wordsA_replicate c3q 'b' 901 rfl (by decide) (by decide) (by decide)]
  simp only [aChunksLoop]
  rw [if_neg (by decide : ¬ 950 < ([] : Str).length)]
  simp

theorem c3q_qFields :
    qFields c3q = [{ name := "Question #".toList ++ Nat.toDigits 10 1, value := c3chunk }] := by
  rw [qFields, c3q_qChunks, chunkFields_singleton]
  rfl

theorem c3q_aFields :
    aFields c3q = [{ name := "Answer #".toList ++ Nat.toDigits 10 1,
                     value := List.replicate 901 'b' ++ [' '] }] := by
  rw [aFields, c3q_aChunks, chunkFields_singleton]
  rfl

theorem c3q_fieldsLen : fieldsLen (qFields c3q ++ aFields c3q) = 5830 := by
  rw [fieldsLen_append, c3q_qFields, c3q_aFields, fieldsLen_single, fieldsLen_single]
  rw [show ("Question #".toList ++ Nat.toDigits 10 1).length = 11 from by decide,
    show ("Answer #".toList ++ Nat.toDigits 10 1).length = 9 from by decide]
  rw [show c3chunk.length = 4908 from by
    rw [c3chunk, show c3q.jumpUrl = List.replicate 4000 'u' from rfl]
    simp only [List.length_append, List.length_replicate, List.length_cons, List.length_nil]
    rw [show ("[> ".toList).length = 3 from rfl, show ("](".toList).length = 2 from rfl]]
  rw [show (List.replicate 901 'b' ++ [' ']).length = 902 from by
    simp only [List.length_append, List.length_replicate, List.length_cons, List.length_nil]]

/-- C3, counterexample: a split-path record with `q+a = 1802 ≤ 4700` is
accepted into a fresh document, but its two formatted blocks total 5830
characters (the 4700 test at interview.py line 258 counts the raw text
only, not the quote/link markup added per chunk), so the emitted document
exceeds the 4800 ceiling even before the header overhead (`em.length`,
142 here) is counted. -/
theorem c3_doc_ceiling_counterexample :
    genEmbeds ivTest [c3q] = [Output.doc c3emb]
    ∧ fieldsLen c3emb.fields = 5830
    ∧ c3emb.emLength + fieldsLen c3emb.fields = 5972
    ∧ 4800 < fieldsLen c3emb.fields := by
  have hlen : c3q.question.length + c3q.answer.length = 1802 := by
    rw [show c3q.question = List.replicate 901 'a' from rfl,
      show c3q.answer = List.replicate 901 'b' from rfl, List.length_replicate,
      List.length_replicate]
  have hadd : addQuestion (blankEmbed ivTest c3q.asker) c3q 0
      = ((splitTextLen c3q : Int), c3emb) := by
    rw [addQuestion_split_eq _ _ _ c3q_not_singleFit, if_neg (by rw [hlen]; omega),
      if_neg (by rw [hlen]; omega)]
    rfl
  have hpos : 0 < c3emb.fields.length := by
    rw [show c3emb.fields = qFields c3q ++ aFields c3q from rfl, c3q_qFields, c3q_aFields]
    decide
  have hrun : genEmbeds ivTest [c3q] = [Output.doc c3emb] :=
    genEmbeds_one ivTest c3q (splitTextLen c3q) c3emb hadd hpos
  have hfl : fieldsLen c3emb.fields = 5830 := by
    rw [show c3emb.fields = qFields c3q ++ aFields c3q from rfl, c3q_fieldsLen]
  refine ⟨hrun, hfl, ?_, by rw [hfl]; omega⟩
  rw [hfl, show c3emb.emLength = 142 from by decide]

/-- C3, amended: the code guards only the sum of block text lengths, and
only exactly for single-block additions — when every input record passes
the single-block test and its block is at most 4800 characters long, every
emitted document's total block length (names plus bodies, header overhead
not counted) stays within `MAX_DOC_LENGTH = 4800`. -/
theorem c3_doc_ceiling_amended (iv : Str) (qs : List Question)
    (h : ∀ q ∈ qs, singleFit q = true ∧ textLen q ≤ 4800) :
    ∀ d ∈ docsOf (genEmbeds iv qs), fieldsLen d.fields ≤ 4800 :=
  genAux_blockSum iv qs none 0 none h (fun _ he => nomatch he)

/-- Witness for C3-amended on two small records. -/
theorem c3_doc_ceiling_amended_witness :
    (∀ q ∈ [wqA1, wqB1], singleFit q = true ∧ textLen q ≤ 4800)
    ∧ ∀ d ∈ docsOf (genEmbeds ivTest [wqA1, wqB1]), fieldsLen d.fields ≤ 4800 :=
  ⟨by decide, c3_doc_ceiling_amended ivTest [wqA1, wqB1] (by decide)⟩

/-- The C4 counterexample record passes the single-block test even though
its raw length exceeds 4700, because `line.strip()` removes all its
whitespace before the test (interview.py line 234). -/
theorem c4q_questionLines : questionLines c4q = [[]] := by
  rw [questionLines, show c4q.question = List.replicate 4701 ' ' from rfl,
    escape_replicate_of ' ' 4701 (by decide) (by decide),
    splitOnChar_replicate_of '\n' ' ' 4701 (by decide), List.map_singleton,
    pyStrip_replicate_space]

theorem c4q_singleFit : singleFit c4q = true := by
  have hlhs : singleFitLHS c4q = 3 := by
    rw [singleFitLHS, c4q_questionLines]
    simp only [List.map_cons, List.map_nil, List.sum_cons, List.sum_nil,
      List.length_cons, List.length_nil]
    rw [show c4q.answer.length = 0 from rfl]
    omega
  simp only [singleFit, hlhs]
  decide

theorem c4q_textLen : textLen c4q = 19 := by
  rw [textLen_eq c4q [] [] c4q_questionLines]
  rw [show (singleName c4q).length = 11 from by decide,
    show c4q.jumpUrl.length = 1 from rfl, show c4q.answer.length = 0 from rfl]
  simp only [List.map_cons, List.map_nil, List.sum_cons, List.sum_nil,
    List.length_cons, List.length_nil]
  omega

/-- C4, counterexample: a record of 4701 spaces has question+answer length
4701 > 4700, yet the packer does not reject it — after per-line stripping
it passes the single-block test and is added to an emitted document. -/
theorem c4_rejection_counterexample :
    4700 < c4q.question.length + c4q.answer.length
    ∧ genEmbeds ivTest [c4q] = [Output.doc c4emb]
    ∧ Output.rejected c4q ∉ genEmbeds ivTest [c4q] := by
  have hadd : addQuestion (blankEmbed ivTest c4q.asker) c4q 0
      = ((textLen c4q : Int), c4emb) := by
    rw [addQuestion_single_eq _ _ _ c4q_singleFit, if_neg (by rw [c4q_textLen]; omega),
      if_neg (by rw [c4q_textLen]; omega)]
    rfl
  have hrun : genEmbeds ivTest [c4q] = [Output.doc c4emb] :=
    genEmbeds_one ivTest c4q (textLen c4q) c4emb hadd (by decide)
  refine ⟨?_, hrun, ?_⟩
  · rw [show c4q.question = List.replicate 4701 ' ' from rfl, List.length_replicate,
      show c4q.answer.length = 0 from rfl]
    omega
  · rw [hrun]
    simp

/-- C4, amended: rejection applies to the split path — every record that
fails the single-block test and has question+answer length above 4700 is
yielded as a RejectedRecord by the generator (from the initial state), and
`add_question` returns `-2` leaving any embed untouched. -/
theorem c4_rejection_amended (iv : Str) (qs : List Question) (q : Question)
    (hmem : q ∈ qs) (hsf : singleFit q = false)
    (hbig : 4700 < q.question.length + q.answer.length) :
    Output.rejected q ∈ genEmbeds iv qs
    ∧ ∀ (em : Embed) (cur : Int), addQuestion em q cur = (-2, em) := by
  constructor
  · exact genAux_rejected_mem iv qs none 0 none (fun a ha => nomatch ha) q hmem hsf hbig
  · intro em cur
    rw [addQuestion_split_eq em q cur hsf, if_pos (by push_cast; omega)]

theorem wqHuge_not_singleFit : singleFit wqHuge = false := by
  have hql : questionLines wqHuge = [List.replicate 4701 'a'] :=
    questionLines_replicate wqHuge 'a' 4701 rfl (by decide) (by decide) (by decide) (by decide)
  have hlhs : singleFitLHS wqHuge = 4704 := by
    rw [singleFitLHS, hql]
    simp only [List.map_cons, List.map_nil, List.sum_cons, List.sum_nil,
      List.length_replicate, List.length_cons, List.length_nil]
    rw [show wqHuge.answer.length = 0 from rfl]
    omega
  simp only [singleFit, hlhs]
  decide

theorem wqHuge_big : 4700 < wqHuge.question.length + wqHuge.answer.length := by
  rw [show wqHuge.question = List.replicate 4701 'a' from rfl, List.length_replicate,
    show wqHuge.answer.length = 0 from rfl]
  omega

/-- Witness for C4-amended: a 4701-character plain-text record alone in the
input is rejected and never added. -/
theorem c4_rejection_amended_witness :
    Output.rejected wqHuge ∈ genEmbeds ivTest [wqHuge]
    ∧ ∀ (em : Embed) (cur : Int), addQuestion em wqHuge cur = (-2, em) :=
  c4_rejection_amended ivTest [wqHuge] wqHuge (List.mem_singleton.mpr rfl)
    wqHuge_not_singleFit wqHuge_big

theorem c6q_questionLines : questionLines c6q = [List.replicate 897 'a'] :=
  questionLines_replicate c6q 'a' 897 rfl (by decide) (by decide) (by decide) (by decide)

theorem c6q_singleFit : singleFit c6q = true := by
  have hlhs : singleFitLHS c6q = 900 := by
    rw [singleFitLHS, c6q_questionLines]
    simp only [List.map_cons, List.map_nil, List.sum_cons, List.sum_nil,
      List.length_replicate, List.length_cons, List.length_nil]
    rw [show c6q.answer.length = 0 from rfl]
    omega
  simp only [singleFit, hlhs]
  decide

theorem c6q_valueLen : (singleValue c6q).length = 989 := by
  rw [singleValue_length_eq c6q (List.replicate 897 'a') [] c6q_questionLines]
  rw [show c6q.jumpUrl = List.replicate 85 'u' from rfl, List.length_replicate,
    show c6q.answer.length = 0 from rfl]
  simp only [List.map_cons, List.map_nil, List.sum_cons, List.sum_nil,
    List.length_replicate, List.length_cons, List.length_nil]
  omega

theorem c6q_textLen : textLen c6q = 1000 := by
  rw [textLen, show (singleName c6q).length = 11 from by decide, c6q_valueLen]

/-- C6, counterexample: a single-line 897-character question passes the
single-block test (897 + 3 ≤ 900) but its produced (non-split) block body
is 989 characters — the 900 test is applied before the `[> ...](link)`
markup is added, so a non-split body is not bounded by 900. -/
theorem c6_block_ceiling_counterexample :
    valueLensOf (genEmbeds ivTest [c6q]) = [[989]]
    ∧ namesOf (genEmbeds ivTest [c6q]) = [[singleName c6q]]
    ∧ singleName c6q = "Question #1".toList
    ∧ 900 < 989 := by
  have hadd : addQuestion (blankEmbed ivTest c6q.asker) c6q 0
      = ((textLen c6q : Int), c6emb) := by
    rw [addQuestion_single_eq _ _ _ c6q_singleFit, if_neg (by rw [c6q_textLen]; omega),
      if_neg (by rw [c6q_textLen]; omega)]
    rfl
  have hrun : genEmbeds ivTest [c6q] = [Output.doc c6emb] :=
    genEmbeds_one ivTest c6q (textLen c6q) c6emb hadd (by decide)
  refine ⟨?_, ?_, by decide, by decide⟩
  · rw [hrun]
    show [[(singleValue c6q).length]] = [[989]]
    rw [c6q_valueLen]
  · rw [hrun]
    rfl

/-- C6, amended: a non-split block body is bounded by
`MAX_BLOCK_LENGTH + 4 + len(link)` (the 900 test precedes the link markup);
a split question chunk is bounded by `904 + (longest requoted word) +
len(link)`; a split answer chunk is bounded by `951 + (longest word)`. -/
theorem c6_block_ceiling_amended (q : Question) (Mq Ma : Nat) :
    (singleFit q = true → (singleValue q).length ≤ 904 + q.jumpUrl.length)
    ∧ ((∀ w ∈ wordsQ q, (expandNL w).length ≤ Mq) →
        ∀ c ∈ qChunks q, c.length ≤ 904 + Mq + q.jumpUrl.length)
    ∧ ((∀ w ∈ wordsA q, w.length ≤ Ma) → ∀ c ∈ aChunks q, c.length ≤ 951 + Ma) :=
  ⟨fun h => singleValue_bound q h,
   fun h => qChunks_bound q Mq h,
   fun h => aChunks_bound q Ma h⟩

/-- Witness for C6-amended on a small record. -/
theorem c6_block_ceiling_amended_witness :
    (singleValue wqA1).length ≤ 904 + wqA1.jumpUrl.length
    ∧ (∀ c ∈ qChunks wqA1, c.length ≤ 904 + 6 + wqA1.jumpUrl.length)
    ∧ (∀ c ∈ aChunks wqA1, c.length ≤ 951 + 9) :=
  ⟨(c6_block_ceiling_amended wqA1 6 9).1 (by decide),
   (c6_block_ceiling_amended wqA1 6 9).2.1 (by decide),
   (c6_block_ceiling_amended wqA1 6 9).2.2 (by decide)⟩

/-- Auxiliary length computation for the C1 input records. -/
theorem c1r1_textLen : textLen c1r1 = 4419 := by
  have hql : questionLines c1r1 = [['q']] := by decide
  rw [textLen_eq c1r1 ['q'] [] hql]
  rw [show (singleName c1r1).length = 11 from by decide,
    show c1r1.jumpUrl = List.replicate 4400 'u' from rfl, List.length_replicate,
    show c1r1.answer.length = 0 from rfl]
  simp only [List.map_cons, List.map_nil, List.sum_cons, List.sum_nil,
    List.length_cons, List.length_nil]
  omega

/-- Auxiliary length computation for the C1 input records. -/
theorem c1r2_textLen : textLen c1r2 = 419 := by
  have hql : questionLines c1r2 = [['q']] := by decide
  rw [textLen_eq c1r2 ['q'] [] hql]
  rw [show (singleName c1r2).length = 11 from by decide,
    show c1r2.jumpUrl = List.replicate 400 'u' from rfl, List.length_replicate,
    show c1r2.answer.length = 0 from rfl]
  simp only [List.map_cons, List.map_nil, List.sum_cons, List.sum_nil,
    List.length_cons, List.length_nil]
  omega

/-- C1: completeness fails on the code.  Two same-asker records whose
single blocks are 4419 and 419 characters long: the second triggers the
document-full code `-1`, after which `_generate_embeds` makes a fresh embed
but never re-adds the record (interview.py lines 392-397, despite the
comment "yield and retry").  The record appears in no emitted document and
is never yielded as rejected — it vanishes from the output. -/
theorem c1_generate_embeds_drops_full_doc_record :
    genEmbeds ivTest [c1r1, c1r2] = [Output.doc c1emb]
    ∧ Output.rejected c1r2 ∉ genEmbeds ivTest [c1r1, c1r2]
    ∧ namesOf (genEmbeds ivTest [c1r1, c1r2]) = [[singleName c1r1]] := by
  have hadd1 : addQuestion (blankEmbed ivTest c1r1.asker) c1r1 0
      = ((textLen c1r1 : Int), c1emb) := by
    rw [addQuestion_single_eq _ _ _ (by decide), if_neg (by rw [c1r1_textLen]; omega),
      if_neg (by rw [c1r1_textLen]; omega)]
    rfl
  have hadd2 : addQuestion c1emb c1r2 (0 + (textLen c1r1 : Int)) = (-1, c1emb) := by
    rw [addQuestion_single_eq _ _ _ (by decide), if_neg (by rw [c1r2_textLen]; omega),
      if_pos (by rw [c1r1_textLen, c1r2_textLen]; omega)]
  have hrun : genEmbeds ivTest [c1r1, c1r2] = [Output.doc c1emb] := by
    rw [genEmbeds,
      genAux_step_changed_add ivTest none 0 none c1emb (textLen c1r1) c1r1 [c1r2] rfl hadd1,
      genAux_step_same_neg1 ivTest (some c1r1.asker) (0 + (textLen c1r1 : Int)) c1emb c1emb
        c1r2 [] (by decide) hadd2,
      genAux_nil, emitList_none, emitList_some_pos (by decide),
      emitList_some_zero (by simp [blankEmbed])]
    simp
  refine ⟨hrun, ?_, ?_⟩
  · rw [hrun]
    simp
  · rw [hrun]
    rfl

/-- Auxiliary length computation for the C2 input records. -/
theorem c2s1_textLen : textLen c2s1 = 4519 := by
  have hql : questionLines c2s1 = [['q']] := by decide
  rw [textLen_eq c2s1 ['q'] [] hql]
  rw [show (singleName c2s1).length = 11 from by decide,
    show c2s1.jumpUrl = List.replicate 4500 'u' from rfl, List.length_replicate,
    show c2s1.answer.length = 0 from rfl]
  simp only [List.map_cons, List.map_nil, List.sum_cons, List.sum_nil,
    List.length_cons, List.length_nil]
  omega

/-- Auxiliary length computation for the C2 input records. -/
theorem c2s2_textLen : textLen c2s2 = 319 := by
  have hql : questionLines c2s2 = [['q']] := by decide
  rw [textLen_eq c2s2 ['q'] [] hql]
  rw [show (singleName c2s2).length = 11 from by decide,
    show c2s2.jumpUrl = List.replicate 300 'u' from rfl, List.length_replicate,
    show c2s2.answer.length = 0 from rfl]
  simp only [List.map_cons, List.map_nil, List.sum_cons, List.sum_nil,
    List.length_cons, List.length_nil]
  omega

/-- C2: the retry-on-full-document behaviour is absent from the code.  The
second record is far below the per-record ceiling (319-character block, raw
length 1), the current document is full (`4519 + 319 > 4800`), and the
claim says the record must be retried into a fresh document — but the code
only creates the fresh embed without re-adding the record, so the record is
placed in no emitted document, and the length accumulator is decremented
instead of reset. -/
theorem c2_no_retry_after_full_document :
    textLen c2s2 ≤ 4700
    ∧ 4800 < 0 + (textLen c2s1 : Int) + (textLen c2s2 : Int)
    ∧ genEmbeds ivTest [c2s1, c2s2] = [Output.doc c2emb]
    ∧ Output.rejected c2s2 ∉ genEmbeds ivTest [c2s1, c2s2]
    ∧ namesOf (genEmbeds ivTest [c2s1, c2s2]) = [[singleName c2s1]] := by
  have hadd1 : addQuestion (blankEmbed ivTest c2s1.asker) c2s1 0
      = ((textLen c2s1 : Int), c2emb) := by
    rw [addQuestion_single_eq _ _ _ (by decide), if_neg (by rw [c2s1_textLen]; omega),
      if_neg (by rw [c2s1_textLen]; omega)]
    rfl
  have hadd2 : addQuestion c2emb c2s2 (0 + (textLen c2s1 : Int)) = (-1, c2emb) := by
    rw [addQuestion_single_eq _ _ _ (by decide), if_neg (by rw [c2s2_textLen]; omega),
      if_pos (by rw [c2s1_textLen, c2s2_textLen]; omega)]
  have hrun : genEmbeds ivTest [c2s1, c2s2] = [Output.doc c2emb] := by
    rw [genEmbeds,
      genAux_step_changed_add ivTest none 0 none c2emb (textLen c2s1) c2s1 [c2s2] rfl hadd1,
      genAux_step_same_neg1 ivTest (some c2s1.asker) (0 + (textLen c2s1 : Int)) c2emb c2emb
        c2s2 [] (by decide) hadd2,
      genAux_nil, emitList_none, emitList_some_pos (by decide),
      emitList_some_zero (by simp [blankEmbed])]
    simp
  refine ⟨by rw [c2s2_textLen]; omega, by rw [c2s1_textLen, c2s2_textLen]; omega, hrun, ?_, ?_⟩
  · rw [hrun]
    simp
  · rw [hrun]
    rfl

/-- The single-fit test fails for the C9 counterexample record. -/
theorem c9q_not_singleFit : singleFit c9q = false := by
  have hql : questionLines c9q = [List.replicate 950 'a'] :=
    questionLines_replicate c9q 'a' 950 rfl (by decide) (by decide) (by decide) (by decide)
  have hlhs : singleFitLHS c9q = 953 := by
    rw [singleFitLHS, hql]
    simp only [List.map_cons, List.map_nil, List.sum_cons, List.sum_nil,
      List.length_replicate, List.length_cons, List.length_nil]
    rw [show c9q.answer.length = 0 from rfl]
    omega
  simp only [singleFit, hlhs]
  decide

theorem c9q_qChunks : qChunks c9q = [c9chunk] := by
  rw [qChunks, wordsQ_replicate c9q 'a' 950 rfl (by decide) (by decide) (by decide)]
  simp only [qChunksLoop]
  rw [if_neg (by decide : ¬ 900 < ("[> ".toList).length),
    expandNL_replicate_of 'a' 950 (by decide)]
  rfl

theorem c9q_aChunks : aChunks c9q = [[' ']] := by decide

theorem c9q_qFields :
    qFields c9q = [{ name := "Question #".toList ++ Nat.toDigits 10 1, value := c9chunk }] := by
  rw [qFields, c9q_qChunks, chunkFields_singleton]
  rfl

theorem c9q_aFields :
    aFields c9q = [{ name := "Answer #".toList ++ Nat.toDigits 10 1, value := [' '] }] := by
  rw [aFields, c9q_aChunks, chunkFields_singleton]
  rfl

/-- C9, counterexample: a single 950-character word is above the per-block
ceiling and below the rejection ceiling, yet the packer does not produce
"multiple numbered blocks `Question #N [i/k]`": the chunking loop closes a
chunk only after it exceeds 900 characters, so this record yields exactly
one question chunk and the blocks keep their plain unnumbered names. -/
theorem c9_roundtrip_counterexample :
    900 < c9q.question.length + c9q.answer.length
    ∧ c9q.question.length + c9q.answer.length ≤ 4700
    ∧ genEmbeds ivTest [c9q] = [Output.doc c9emb]
    ∧ namesOf (genEmbeds ivTest [c9q]) = [["Question #1".toList, "Answer #1".toList]]
    ∧ (qChunks c9q).length = 1 := by
  have hlen : c9q.question.length + c9q.answer.length = 950 := by
    rw [show c9q.question = List.replicate 950 'a' from rfl, List.length_replicate,
      show c9q.answer.length = 0 from rfl]
  have hadd : addQuestion (blankEmbed ivTest c9q.asker) c9q 0
      = ((splitTextLen c9q : Int), c9emb) := by
    rw [addQuestion_split_eq _ _ _ c9q_not_singleFit, if_neg (by rw [hlen]; omega),
      if_neg (by rw [hlen]; omega)]
    rfl
  have hpos : 0 < c9emb.fields.length := by
    rw [show c9emb.fields = qFields c9q ++ aFields c9q from rfl, c9q_qFields, c9q_aFields]
    decide
  have hrun : genEmbeds ivTest [c9q] = [Output.doc c9emb] :=
    genEmbeds_one ivTest c9q (splitTextLen c9q) c9emb hadd hpos
  refine ⟨by rw [hlen]; omega, by rw [hlen]; omega, hrun, ?_, by rw [c9q_qChunks]; rfl⟩
  rw [hrun]
  show [(qFields c9q ++ aFields c9q).map Field.name] = _
  rw [c9q_qFields, c9q_aFields]
  decide

/-- C9, amended: a record that fails the single-block test, with
`q+a ≤ 4700`, packed alone, produces exactly one document whose fields are
the question chunks followed by the answer chunks; the concatenated
question-chunk payloads (markup stripped) rebuild the escaped,
newline-requoted question text plus a trailing space, the concatenated
answer chunks rebuild the escaped answer plus a trailing space, and the
`[i/k]` numbering appears exactly when the question splits into at least
two chunks. -/
theorem c9_roundtrip_amended (iv : Str) (q : Question)
    (hsf : singleFit q = false)
    (hfit : q.question.length + q.answer.length ≤ 4700) :
    genEmbeds iv [q] = [Output.doc { asker := q.asker, emLength := headerLen iv q.asker,
                                     fields := qFields q ++ aFields q }]
    ∧ payloadConcat q.jumpUrl (qChunks q) = expandNL (escape q.question) ++ [' ']
    ∧ (aChunks q).flatten = escape q.answer ++ [' ']
    ∧ (1 < (qChunks q).length →
        (qFields q).map Field.name
          = (List.range (qChunks q).length).map (fun i =>
              "Question #".toList ++ Nat.toDigits 10 q.question_num ++ " [".toList
                ++ Nat.toDigits 10 (i + 1) ++ ['/']
                ++ Nat.toDigits 10 (qChunks q).length ++ [']'])) := by
  have hadd : addQuestion (blankEmbed iv q.asker) q 0
      = ((splitTextLen q : Int), { asker := q.asker, emLength := headerLen iv q.asker,
                                   fields := qFields q ++ aFields q }) := by
    rw [addQuestion_split_eq _ _ _ hsf, if_neg (by omega), if_neg (by omega)]
    rfl
  have hpos : 0 < (qFields q ++ aFields q).length := by
    have := List.length_pos.mpr (aFields_ne_nil q)
    simp only [List.length_append]
    omega
  refine ⟨genEmbeds_one iv q (splitTextLen q) _ hadd hpos, qChunks_payload q,
    aChunks_flatten q, ?_⟩
  intro hk
  rw [qFields, chunkFields]
  rw [show (fun ic : Nat × Str =>
      ({ name := chunkName "Question #".toList q.question_num (qChunks q).length ic.1,
         value := ic.2 } : Field))
    = (fun ic : Nat × Str =>
      ({ name := chunkName "Question #".toList q.question_num (qChunks q).length ic.1,
         value := ic.2 } : Field)) from rfl]
  rw [List.map_map]
  have hcomp : (Field.name ∘ fun ic : Nat × Str =>
      ({ name := chunkName "Question #".toList q.question_num (qChunks q).length ic.1,
         value := ic.2 } : Field))
    = (fun i : Nat => chunkName "Question #".toList q.question_num (qChunks q).length i)
        ∘ Prod.fst := rfl
  rw [hcomp, ← List.map_map, List.enum_map_fst]
  refine List.map_congr_left ?_
  intro i _
  rw [chunkName, if_pos hk]

/-- Witness for C9-amended on the split-path witness record. -/
theorem c9_roundtrip_amended_witness :
    singleFit wqSplit = false
    ∧ wqSplit.question.length + wqSplit.answer.length ≤ 4700
    ∧ payloadConcat wqSplit.jumpUrl (qChunks wqSplit)
        = expandNL (escape wqSplit.question) ++ [' ']
    ∧ (aChunks wqSplit).flatten = escape wqSplit.answer ++ [' '] := by
  have hfit : wqSplit.question.length + wqSplit.answer.length ≤ 4700 := by
    rw [show wqSplit.question = List.replicate 901 'a' from rfl, List.length_replicate,
      show wqSplit.answer.length = 5 from rfl]
    omega
  exact ⟨wqSplit_not_singleFit, hfit,
    (c9_roundtrip_amended ivTest wqSplit wqSplit_not_singleFit hfit).2.1,
    (c9_roundtrip_amended ivTest wqSplit wqSplit_not_singleFit hfit).2.2.1⟩

/-- C5: grouping by asker.  If two consecutive records are both placed, a
shared asker keeps them in the same emitted document and differing askers
put the second one in exactly the next document; each placed record's
document really is emitted and is authored by that record's asker. -/
theorem c5_grouping (iv : Str) (qs : List Question) (j k k' : Nat) (q q' : Question)
    (hq : qs[j]? = some q) (hq' : qs[j + 1]? = some q')
    (hk : (outcomes qs)[j]? = some (Outcome.placed k))
    (hk' : (outcomes qs)[j + 1]? = some (Outcome.placed k')) :
    (q.asker.id = q'.asker.id → k' = k)
    ∧ (q.asker.id ≠ q'.asker.id → k' = k + 1)
    ∧ (∃ d, (docsOf (genEmbeds iv qs))[k]? = some d ∧ d.asker.id = q.asker.id)
    ∧ (∃ d, (docsOf (genEmbeds iv qs))[k']? = some d ∧ d.asker.id = q'.asker.id) := by
  rw [outcomes] at hk hk'
  have hcons := outcomes_consecutive qs none 0 none 0 j q q' k k' hq hq' hk hk'
  have hs1 := outcomes_sim iv qs none 0 none 0 none none rfl rfl
    (fun _ _ _ ha => nomatch ha) j q k hq hk
  have hs2 := outcomes_sim iv qs none 0 none 0 none none rfl rfl
    (fun _ _ _ ha => nomatch ha) (j + 1) q' k' hq' hk'
  refine ⟨hcons.1, hcons.2, ?_, ?_⟩
  · have h := hs1.2
    rw [Nat.sub_zero] at h
    exact h
  · have h := hs2.2
    rw [Nat.sub_zero] at h
    exact h

/-- Witness for C5 on two same-asker records, both placed in document 0. -/
theorem c5_grouping_witness :
    (wqA1.asker.id = wqA2.asker.id → (0 : Nat) = 0)
    ∧ (wqA1.asker.id ≠ wqA2.asker.id → (0 : Nat) = 0 + 1)
    ∧ (∃ d, (docsOf (genEmbeds ivTest [wqA1, wqA2]))[(0 : Nat)]? = some d
        ∧ d.asker.id = wqA1.asker.id)
    ∧ (∃ d, (docsOf (genEmbeds ivTest [wqA1, wqA2]))[(0 : Nat)]? = some d
        ∧ d.asker.id = wqA2.asker.id) :=
  c5_grouping ivTest [wqA1, wqA2] 0 0 0 wqA1 wqA2 rfl rfl (by decide) (by decide)

/-- C8, amended: the question text is escaped in both paths — the
single-block question portion and every split-path question payload and
answer chunk contain no bare bracket — while the single-block path appends
the answer verbatim (unescaped) after the newline separator. -/
theorem c8_escaping_amended (q : Question) :
    bracketsEscaped (joinSep "> ".toList (questionLines q)) = true
    ∧ (singleValue q).drop ((singleFormatted q).length + 1) = q.answer
    ∧ bracketsEscaped (payloadConcat q.jumpUrl (qChunks q)) = true
    ∧ bracketsEscaped ((aChunks q).flatten) = true := by
  refine ⟨beAux_questionPortion q, ?_, bracketsEscaped_qPayload q, bracketsEscaped_aFlatten q⟩
  have h : singleValue q = (singleFormatted q ++ ['
']) ++ q.answer := by
    rw [singleValue]
    simp
  rw [h]
  rw [show (singleFormatted q).length + 1 = (singleFormatted q ++ ['
']).length from by simp]
  exact List.drop_left _ _

end Hostbot
